import Mathlib

/-!
# V-Ray for Blender: diff cache, ZMQ transport, image pipeline and frame driver

A shallow embedding of

* `intern/vray_for_blender_rt/src/plugin_exporter/vfb_plugin_manager.cpp`
  (`getValueHash`, `getAttrHash`, `PluginManager`, including `diffWithPlugin`),
* `intern/vray_for_blender_rt/src/plugin_exporter/vfb_plugin_exporter_zmq.cpp`
  (`ZmqExporter::export_plugin`, `ZmqRenderImage::update`, `ZmqExporter::get_image`), and
* `intern/vray_for_blender_rt/src/vfb_scene_exporter_pro.cpp`
  (`ProductionExporter::is_interrupted`, `wait_for_frame_render`, `export_scene`,
  `render_end`, `cb_on_bucket_ready`),

followed by theorems about the embedding.

Conventions of the embedding.

* A 32-bit float is represented by its bit pattern (a natural number below `2^32`);
  an `int` by an integer, converted to `unsigned` by reduction modulo `2^32`.
* Time stamps and frame numbers are only stored and compared for equality by the code
  embedded here; they are represented by integers.
* The hash maps of the program (`PluginAttrs`, `m_attrHashes`, `m_cache`) are represented by
  the list of their entries in enumeration order.  The container is declared in a header
  that is not among the embedded sources, and the order in which it enumerates its entries
  is its own: a description is any list of attributes, and the embedded functions go through
  it as it is.  Where an insertion creates a new entry, the embedding has to put it
  somewhere; it puts it at its key position (the order `keyLt`).  This is a choice of the
  representation, not a property of the program: the theorems that need it assume `WF`, the
  others hold for every enumeration.
* The frame driver runs next to other threads.  What it reads of the state they write is an
  input of the embedding (a list of observations, one for each iteration of the wait); the
  calls it makes are recorded in a trace.
* `MurmurHash3_x86_32` (from `utils/cgr_hash.h`) and `PluginManager::filterPlugin` are not
  part of the embedded sources; they are parameters (`H`, `filterPlugin`) of the definitions
  that call them.
* The mutex `m_cacheLock` has no counterpart: every operation is modelled as atomic.
-/

namespace VRayForBlender

/-! ## Hash maps -/

/-- The strict lexicographic order on lists of character codes. -/
def codesLt : List Nat → List Nat → Bool
  | _, [] => false
  | [], _ :: _ => true
  | a :: as, b :: bs => if a < b then true else if a = b then codesLt as bs else false

/-- The lexicographic order of the keys.  It is where the insertions of the embedding
(`HashMap.set`, `PluginDesc.insertAttr`) put a new entry; neither the specification nor the
embedded sources say where the container of the program enumerates it. -/
def keyLt (a b : String) : Bool := codesLt (a.data.map Char.toNat) (b.data.map Char.toNat)

/-- Modelled from the spec: the container `HashMap<std::string, T>` (declared in a header
that is not among the embedded sources) is a finite mapping with unique keys.  It is
represented by the list of its entries in the order in which the container enumerates them,
whatever that order is. -/
abbrev HashMap (β : Type) := List (String × β)

namespace HashMap

/-- The member function `find`: the value stored under `key`, `none` standing for `end()`. -/
def find {β : Type} : HashMap β → String → Option β
  | [], _ => none
  | (k, v) :: m, key => if k = key then some v else find m key

/-- The assignment `m[key] = value`: overwrite the entry of `key` where it is, or create a
new entry.  Where the container enumerates a new entry is not known; the embedding puts it
at its key position. -/
def set {β : Type} : HashMap β → String → β → HashMap β
  | [], key, value => [(key, value)]
  | (k, v) :: m, key, value =>
    if k = key then (k, value) :: m
    else if keyLt key k then (key, value) :: (k, v) :: m
    else (k, v) :: set m key value

/-- The member function `erase(key)`. -/
def erase {β : Type} (m : HashMap β) (key : String) : HashMap β :=
  m.filter fun e => decide (e.1 ≠ key)

/-- The member function `size()`. -/
def size {β : Type} (m : HashMap β) : Nat := m.length

end HashMap

/-! ## Value model (`VRayBaseTypes`) -/

/-- Modelled from the spec: the type `MHash` (declared in `utils/cgr_hash.h`, not among the
embedded sources) is the 32-bit digest. -/
abbrev MHash := Nat

/-- The signature of `MurmurHash3_x86_32(key, len, seed, out)` as the embedded code calls it:
key bytes and seed to digest. -/
abbrev HashFn := List Nat → MHash → MHash

/-- The four bytes (little endian) of a 32-bit word. -/
def bytesOfWord (n : Nat) : List Nat :=
  [n % 256, n / 256 % 256, n / 65536 % 256, n / 16777216 % 256]

/-- Conversion of an `int` to a 32-bit `unsigned`. -/
def wordOfInt (i : Int) : Nat := (i % 4294967296).toNat

/-- The bytes of a `std::string` (`c_str()`, `size()`). -/
def stringBytes (s : String) : List Nat :=
  s.data.flatMap fun c => (String.utf8EncodeChar c).map UInt8.toNat

/-- Modelled from the spec: `Color(r,g,b)`, the struct `AttrColor` (the structs of the value
model are declared in `VRayBaseTypes`, not among the embedded sources; field names are those
the embedded code uses). -/
structure AttrColor where
  r : Nat
  g : Nat
  b : Nat
  deriving DecidableEq, Repr

/-- Modelled from the spec: `AlphaColor(r,g,b,a)`, the struct `AttrAColor`. -/
structure AttrAColor where
  color : AttrColor
  alpha : Nat
  deriving DecidableEq, Repr

/-- Modelled from the spec: `Vector(x,y,z)`, the struct `AttrVector`. -/
structure AttrVector where
  x : Nat
  y : Nat
  z : Nat
  deriving DecidableEq, Repr

/-- Modelled from the spec: `Matrix(3×3)`, the struct `AttrMatrix`, as three vectors. -/
structure AttrMatrix where
  v0 : AttrVector
  v1 : AttrVector
  v2 : AttrVector
  deriving DecidableEq, Repr

/-- Modelled from the spec: `Transform(3×4 matrix + offset)`, the struct `AttrTransform`. -/
structure AttrTransform where
  m : AttrMatrix
  offs : AttrVector
  deriving DecidableEq, Repr

/-- Modelled from the spec: `PluginRef(name, optional output-socket name)`, the struct
`AttrPlugin` with the members `plugin` and `output` (an empty `output` means no socket). -/
structure AttrPlugin where
  plugin : String
  output : String
  deriving DecidableEq, Repr

/-- The default constructed `AttrPlugin()`. -/
def AttrPlugin.empty : AttrPlugin := { plugin := "", output := "" }

/-- Modelled from the spec: one channel of `MapChannels`, a channel name with a face-index
list and a vertex list (members `name`, `faces`, `vertices`). -/
structure AttrMapChannel where
  vertices : List AttrVector
  faces : List Int
  name : String
  deriving DecidableEq, Repr

/-- Modelled from the spec: one instance record of `Instancer`, transform + velocity +
integer index + PluginRef to the instanced node (members `tm`, `vel`, `index`, `node`).  The
field `nodeRepr` is the object representation (the `sizeof(AttrPlugin)` bytes in memory) of
`node`, which is what the generic `getValueHash(const T &, seed)` reads for `rd.node`. -/
structure AttrInstancerItem where
  index : Int
  tm : AttrTransform
  vel : AttrTransform
  node : AttrPlugin
  nodeRepr : List Nat
  deriving DecidableEq, Repr

/-- Modelled from the spec: `Instancer`, a frame number and an ordered list of instance
records (members `frameNumber`, `data`). -/
structure AttrInstancer where
  frameNumber : Int
  data : List AttrInstancerItem
  deriving DecidableEq, Repr

/-- Modelled from the spec: the two payload encodings of the image pipeline, raw
(`RGBA_REAL`) and compressed (`JPG`); `other` stands for any further enumerator. -/
inductive ImageType where
  | other
  | RGBA_REAL
  | JPG
  deriving DecidableEq, Repr

/-- Modelled from the spec: an inbound image payload, the struct `AttrImage` with the members
`imageType`, `data` (the payload bytes), `size`, `width`, `height` and the placement `x`, `y`
of a partial region; `isBucket` is the value of the member function `isBucket()`. -/
structure AttrImage where
  imageType : ImageType
  data : List Nat
  size : Nat
  width : Nat
  height : Nat
  x : Nat
  y : Nat
  isBucket : Bool
  deriving DecidableEq, Repr

/-- Modelled from the spec: `AttributeValue`, a tagged variant; the struct `AttrValue` with
its type tag `type` and the member that the tag selects.  There is one constructor for each
enumerator `ValueType...` that the embedded code names (`unknown` is `ValueTypeUnknown`). -/
inductive AttrValue where
  | unknown
  | int (valInt : Int)
  | float (valFloat : Nat)
  | string (valString : String)
  | color (valColor : AttrColor)
  | acolor (valAColor : AttrAColor)
  | vector (valVector : AttrVector)
  | plugin (valPlugin : AttrPlugin)
  | transform (valTransform : AttrTransform)
  | matrix (valMatrix : AttrMatrix)
  | listInt (valListInt : List Int)
  | listFloat (valListFloat : List Nat)
  | listVector (valListVector : List AttrVector)
  | listColor (valListColor : List AttrColor)
  | listPlugin (valListPlugin : List AttrPlugin)
  | listString (valListString : List String)
  | mapChannels (valMapChannels : HashMap AttrMapChannel)
  | instancer (valInstancer : AttrInstancer)
  | image (valImage : AttrImage)
  deriving DecidableEq, Repr

/-- Object representation of an `AttrColor`. -/
def AttrColor.bytes (c : AttrColor) : List Nat :=
  bytesOfWord c.r ++ bytesOfWord c.g ++ bytesOfWord c.b

/-- Object representation of an `AttrAColor`. -/
def AttrAColor.bytes (c : AttrAColor) : List Nat :=
  c.color.bytes ++ bytesOfWord c.alpha

/-- Object representation of an `AttrVector`. -/
def AttrVector.bytes (v : AttrVector) : List Nat :=
  bytesOfWord v.x ++ bytesOfWord v.y ++ bytesOfWord v.z

/-- Object representation of an `AttrMatrix`. -/
def AttrMatrix.bytes (m : AttrMatrix) : List Nat :=
  m.v0.bytes ++ m.v1.bytes ++ m.v2.bytes

/-- Object representation of an `AttrTransform`. -/
def AttrTransform.bytes (t : AttrTransform) : List Nat :=
  t.m.bytes ++ t.offs.bytes

/-! ## Hasher (`vfb_plugin_manager.cpp`, anonymous namespace) -/

/-- The three overloads of `getValueHash`: each hashes a byte range with a seed.  They differ
in the byte range only: the element buffer of an `AttrList<T>` (`getData()->data()`,
`getBytesCount()`), the object representation of any other `T` (`&val`, `sizeof(val)`), and
the characters of a `std::string`.  The caller passes the byte range; the default seed of the
source is `42`. -/
def getValueHash (H : HashFn) (bytes : List Nat) (seed : MHash) : MHash :=
  H bytes seed

/-- The body of the `ValueTypeInstancer` loop of `getAttrHash`. -/
def instancerItemHash (H : HashFn) (valHash : MHash) (rd : AttrInstancerItem) : MHash :=
  let valHash := getValueHash H rd.tm.bytes valHash
  let valHash := getValueHash H rd.vel.bytes valHash
  let valHash := getValueHash H (bytesOfWord (wordOfInt rd.index)) valHash
  getValueHash H rd.nodeRepr valHash

/-- The body of the `ValueTypeListPlugin` loop of `getAttrHash`. -/
def listPluginItemHash (H : HashFn) (valHash : MHash) (rPlugin : AttrPlugin) : MHash :=
  let valHash := getValueHash H (stringBytes rPlugin.plugin) valHash
  if rPlugin.output ≠ "" then getValueHash H (stringBytes rPlugin.output) valHash else valHash

/-- The body of the `ValueTypeMapChannels` loop of `getAttrHash`. -/
def mapChannelHash (H : HashFn) (valHash : MHash) (iter : String × AttrMapChannel) : MHash :=
  let map := iter.2
  let valHash := getValueHash H (stringBytes map.name) valHash
  let valHash := getValueHash H (map.faces.flatMap fun i => bytesOfWord (wordOfInt i)) valHash
  getValueHash H (map.vertices.flatMap AttrVector.bytes) valHash

/-- The function `getAttrHash(value, seed)`.  (A float is its bit pattern; the reduction
modulo `2^32` only keeps the digest of an out-of-range pattern a 32-bit word.) -/
def getAttrHash (H : HashFn) (value : AttrValue) (seed : MHash) : MHash :=
  match value with
  | .int v => wordOfInt v
  | .float v => v % 4294967296
  | .string v => getValueHash H (stringBytes v) 42
  | .color v => getValueHash H v.bytes 42
  | .acolor v => getValueHash H v.bytes 42
  | .vector v => getValueHash H v.bytes 42
  | .plugin v =>
    let valHash := getValueHash H (stringBytes v.plugin) 42
    if v.output ≠ "" then getValueHash H (stringBytes v.output) valHash else valHash
  | .transform v => getValueHash H v.bytes 42
  | .matrix v => getValueHash H v.bytes 42
  | .listInt v => getValueHash H (v.flatMap fun i => bytesOfWord (wordOfInt i)) 42
  | .listFloat v => getValueHash H (v.flatMap bytesOfWord) 42
  | .listVector v => getValueHash H (v.flatMap AttrVector.bytes) 42
  | .listColor v => getValueHash H (v.flatMap AttrColor.bytes) 42
  | .instancer v =>
    v.data.foldl (instancerItemHash H)
      (getValueHash H (bytesOfWord (wordOfInt v.frameNumber)) 42)
  | .listPlugin v => v.foldl (listPluginItemHash H) seed
  | .listString v => v.foldl (fun valHash s => getValueHash H (stringBytes s) valHash) seed
  | .mapChannels v => v.foldl (mapChannelHash H) seed
  | _ => 0

/-! ## Entity descriptions (`PluginDesc`) -/

/-- Modelled from the spec: an attribute name with its `(AttributeValue, timestamp)`; the
struct `PluginAttr` with the members `attrName`, `attrValue` and `time`. -/
structure PluginAttr where
  attrName : String
  attrValue : AttrValue
  time : Int
  deriving DecidableEq, Repr

/-- Modelled from the spec: `EntityDescription`, the struct `PluginDesc` (declared in a header
that is not among the embedded sources): a name, a kind and `pluginAttrs`, a mapping from
attribute names to `(AttributeValue, timestamp)` with unique keys.  The mapping is
represented by the list of its entries in enumeration order, each entry being keyed by its
`attrName`. -/
structure PluginDesc where
  pluginName : String
  pluginID : String
  pluginAttrs : List PluginAttr
  deriving DecidableEq, Repr

namespace PluginDesc

/-- The constructor `PluginDesc(plugin_name, plugin_id)`: no attributes. -/
def create (pluginName pluginID : String) : PluginDesc :=
  { pluginName := pluginName, pluginID := pluginID, pluginAttrs := [] }

/-- The lookup `pluginAttrs.find(name)` / `get(name)`; `none` stands for `end()` / `nullptr`. -/
def get (d : PluginDesc) (name : String) : Option PluginAttr :=
  d.pluginAttrs.find? fun a => decide (a.attrName = name)

/-- Modelled from the spec: insertion of an attribute into the `pluginAttrs` mapping (keys
unique): overwrite the entry of the same name where it is, or create a new entry.  Where the
container enumerates a new entry is not known; the embedding puts it at its key position. -/
def insertAttr : List PluginAttr → PluginAttr → List PluginAttr
  | [], attr => [attr]
  | a :: as, attr =>
    if a.attrName = attr.attrName then attr :: as
    else if keyLt attr.attrName a.attrName then attr :: a :: as
    else a :: insertAttr as attr

/-- Modelled from the spec: `PluginDesc::add(attrName, attrValue)` (defined in a file that is
not among the embedded sources) stores the value under the unique key `attrName`; the time
stamp of an attribute added without a time argument is the default `0`. -/
def add (d : PluginDesc) (attrName : String) (attrValue : AttrValue) : PluginDesc :=
  { d with pluginAttrs :=
      insertAttr d.pluginAttrs { attrName := attrName, attrValue := attrValue, time := 0 } }

/-- The attribute names of a description, in enumeration order. -/
def attrNames (d : PluginDesc) : List String := d.pluginAttrs.map PluginAttr.attrName

/-- The attribute names are unique and listed in key order, the order in which the
insertions of the embedding leave a mapping.  A description that the container of the
program enumerates in another order is a list in that order, and is not `WF`. -/
def WF (d : PluginDesc) : Prop := d.attrNames.Pairwise fun a b => keyLt a b = true

instance (d : PluginDesc) : Decidable d.WF := by
  unfold WF
  infer_instance

end PluginDesc

/-! ## Diff cache (`PluginManager`) -/

/-- Modelled from the spec: `CacheEntry`, the struct `PluginManager::PluginDescHash`
(declared in `vfb_plugin_manager.h`, not among the embedded sources) with the members the
embedded code uses.  `m_frame` is `none` as long as it has not been assigned. -/
structure PluginDescHash where
  m_allHash : MHash
  m_desc : PluginDesc
  m_attrHashes : HashMap MHash
  m_frame : Option Int
  deriving DecidableEq, Repr

/-- Modelled from the spec: the state of the diff cache, the members `m_cache` (entity name
to cache entry) and `m_storeData` (the retain-full-data mode) of `PluginManager`. -/
structure PluginManager where
  m_cache : HashMap PluginDescHash
  m_storeData : Bool
  deriving DecidableEq, Repr

/-- The result of `diffWithCache`: the `std::pair<bool, PluginDesc>` it returns, and
`assertOk`, which is `false` exactly when the run reached `VFB_Assert` with a false
condition (the function body is embedded as it runs when the assertion does not abort). -/
structure DiffResult where
  first : Bool
  second : PluginDesc
  assertOk : Bool
  deriving DecidableEq, Repr

namespace PluginManager

/-- One iteration of the loop of `makeHash`. -/
def makeHashStep (H : HashFn) (hash : PluginDescHash) (attr : PluginAttr) : PluginDescHash :=
  let aHash := getAttrHash H attr.attrValue 42
  { hash with
    m_allHash := getValueHash H (bytesOfWord aHash) hash.m_allHash
    m_attrHashes := HashMap.set hash.m_attrHashes attr.attrName aHash }

/-- The function `PluginManager::makeHash`. -/
def makeHash (H : HashFn) (pluginDesc : PluginDesc) : PluginDescHash :=
  pluginDesc.pluginAttrs.foldl (makeHashStep H)
    { m_allHash := 42
      m_desc := PluginDesc.create pluginDesc.pluginName pluginDesc.pluginID
      m_attrHashes := []
      m_frame := none }

/-- The function `PluginManager::inCache` (both overloads look a name up). -/
def inCache (pm : PluginManager) (name : String) : Bool :=
  (HashMap.find pm.m_cache name).isSome

/-- The function `PluginManager::remove` (both overloads erase a name). -/
def remove (pm : PluginManager) (pluginName : String) : PluginManager :=
  { pm with m_cache := HashMap.erase pm.m_cache pluginName }

/-- The function `PluginManager::clear`. -/
def clear (pm : PluginManager) : PluginManager :=
  { pm with m_cache := [] }

/-- The function `PluginManager::updateCache`. -/
def updateCache (H : HashFn) (pm : PluginManager) (desc : PluginDesc) (frame : Int) :
    PluginManager :=
  let hashedDesc := makeHash H desc
  let hashedDesc :=
    if pm.m_storeData then { hashedDesc with m_desc := desc, m_frame := some frame }
    else hashedDesc
  { pm with m_cache := HashMap.set pm.m_cache desc.pluginName hashedDesc }

/-- The statement `res.add(attr.attrName, attr.attrValue)` of `diffWithCache`, where `attr` is
`pluginDesc.pluginAttrs.find(name)->second`.  (When the name is not found the source
dereferences `end()`; the embedding leaves `res` as it is.  The case does not arise: the
names come from `pluginDesc` itself.) -/
def addFromDesc (pluginDesc : PluginDesc) (name : String) (res : PluginDesc) : PluginDesc :=
  match pluginDesc.get name with
  | some attr => res.add attr.attrName attr.attrValue
  | none => res

/-- The loop `for (const auto &attrHash : descAttrMap)` of `diffWithCache` together with the
final `return std::make_pair(false, res)`. -/
def diffLoop (cacheAttrMap : HashMap MHash) (pluginDesc : PluginDesc) (buildDiff : Bool) :
    List (String × MHash) → PluginDesc → Bool × PluginDesc
  | [], res => (false, res)
  | attrHash :: rest, res =>
    match HashMap.find cacheAttrMap attrHash.1 with
    | none =>
      if buildDiff then
        diffLoop cacheAttrMap pluginDesc buildDiff rest (addFromDesc pluginDesc attrHash.1 res)
      else (true, res)
    | some cacheHash =>
      if attrHash.2 ≠ cacheHash then
        if buildDiff then
          diffLoop cacheAttrMap pluginDesc buildDiff rest (addFromDesc pluginDesc attrHash.1 res)
        else (true, res)
      else diffLoop cacheAttrMap pluginDesc buildDiff rest res

/-- The function `PluginManager::diffWithCache`. -/
def diffWithCache (H : HashFn) (pm : PluginManager) (pluginDesc : PluginDesc)
    (buildDiff : Bool) : DiffResult :=
  let res := PluginDesc.create pluginDesc.pluginName pluginDesc.pluginID
  match HashMap.find pm.m_cache pluginDesc.pluginName with
  | none => { first := true, second := res, assertOk := true }
  | some cacheEntry =>
    if HashMap.size cacheEntry.m_attrHashes ≠ pluginDesc.pluginAttrs.length ∧ buildDiff = false
    then { first := true, second := res, assertOk := true }
    else
      let descHash := makeHash H pluginDesc
      if descHash.m_allHash ≠ cacheEntry.m_allHash then
        if buildDiff = false then { first := true, second := res, assertOk := true }
        else
          let r := diffLoop cacheEntry.m_attrHashes pluginDesc buildDiff descHash.m_attrHashes res
          { first := r.1, second := r.2
            assertOk := decide (cacheEntry.m_desc.pluginID = pluginDesc.pluginID) }
      else { first := false, second := res, assertOk := true }

/-- The function `PluginManager::differsId`. -/
def differsId (pm : PluginManager) (pluginDesc : PluginDesc) : Bool :=
  match HashMap.find pm.m_cache pluginDesc.pluginName with
  | none => false
  | some entry => decide (entry.m_desc.pluginID ≠ pluginDesc.pluginID)

/-- The function `PluginManager::differs`. -/
def differs (H : HashFn) (pm : PluginManager) (pluginDesc : PluginDesc) : Bool :=
  (diffWithCache H pm pluginDesc false).first

/-- The function `PluginManager::differences`. -/
def differences (H : HashFn) (pm : PluginManager) (pluginDesc : PluginDesc) : PluginDesc :=
  (diffWithCache H pm pluginDesc true).second

end PluginManager

/-! ## Transport (`ZmqExporter`) -/

/-- Modelled from the spec: the control messages, the enumeration
`VRayMessage::RendererAction` with the enumerators the embedded code sends. -/
inductive RendererAction where
  | Init
  | Free
  | Start
  | Stop
  | Resize
  | SetCurrentTime
  deriving DecidableEq, Repr

/-- Modelled from the spec: the two message classes of the transport, as built by the
overloads of `VRayMessage::createMessage`:
`(name, pluginID)` declares a plugin, `(name, attrName, value)` updates one attribute, and
`(action, args...)` is a renderer control message. -/
inductive VRayMessage where
  | createPlugin (plugin : String) (pluginID : String)
  | pluginAttr (plugin : String) (attrName : String) (value : AttrValue)
  | rendererAction (action : RendererAction) (args : List Int)
  deriving DecidableEq, Repr

/-- The message `createMessage(RendererAction::SetCurrentTime, time)`. -/
def VRayMessage.setCurrentTime (time : Int) : VRayMessage :=
  .rendererAction .SetCurrentTime [time]

/-- The local state of `export_plugin` while it loops over the attributes: the messages
handed to `m_Client->send` so far (oldest first), the locals `timeSet` and `lastTime`, and
`assertFailed`, which records that the `default` branch (`assert(false)`) was reached (the
loop is embedded as it runs when the assertion does not abort). -/
structure ExportState where
  m_Client : List VRayMessage
  timeSet : Bool
  lastTime : Int
  assertFailed : Bool
  deriving DecidableEq, Repr

/-- The call `m_Client->send(msg)`. -/
def ExportState.send (s : ExportState) (msg : VRayMessage) : ExportState :=
  { s with m_Client := s.m_Client ++ [msg] }

/-- The `if (!timeSet) ... else if (lastTime != attr.time) ...` statement of `export_plugin`. -/
def exportTime (s : ExportState) (attr : PluginAttr) : ExportState :=
  if s.timeSet = false then
    { s.send (VRayMessage.setCurrentTime attr.time) with timeSet := true }
  else if s.lastTime ≠ attr.time then
    { s.send (VRayMessage.setCurrentTime attr.time) with lastTime := attr.time }
  else s

/-- The `switch (attr.attrValue.type)` statement of `export_plugin`. -/
def exportValue (name : String) (s : ExportState) (attr : PluginAttr) : ExportState :=
  match attr.attrValue with
  | .unknown => s
  | .int v => s.send (.pluginAttr name attr.attrName (.int v))
  | .float v => s.send (.pluginAttr name attr.attrName (.float v))
  | .string v => s.send (.pluginAttr name attr.attrName (.string v))
  | .color v => s.send (.pluginAttr name attr.attrName (.color v))
  | .vector v => s.send (.pluginAttr name attr.attrName (.vector v))
  | .acolor v => s.send (.pluginAttr name attr.attrName (.acolor v))
  | .plugin v => s.send (.pluginAttr name attr.attrName (.plugin v))
  | .transform v => s.send (.pluginAttr name attr.attrName (.transform v))
  | .listInt v => s.send (.pluginAttr name attr.attrName (.listInt v))
  | .listFloat v => s.send (.pluginAttr name attr.attrName (.listFloat v))
  | .listVector v => s.send (.pluginAttr name attr.attrName (.listVector v))
  | .listColor v => s.send (.pluginAttr name attr.attrName (.listColor v))
  | .listPlugin v => s.send (.pluginAttr name attr.attrName (.listPlugin v))
  | .listString v => s.send (.pluginAttr name attr.attrName (.listString v))
  | .mapChannels v => s.send (.pluginAttr name attr.attrName (.mapChannels v))
  | .instancer v => s.send (.pluginAttr name attr.attrName (.instancer v))
  | _ => { s with assertFailed := true }

/-- One iteration of the loop `for (auto & attributePairs : pluginDesc.pluginAttrs)`. -/
def exportAttr (name : String) (s : ExportState) (attr : PluginAttr) : ExportState :=
  exportValue name (exportTime s attr) attr

/-- The result of `export_plugin`: the messages sent by the call (oldest first), the returned
`AttrPlugin`, and whether the `assert(false)` branch was reached. -/
structure ExportResult where
  sent : List VRayMessage
  plugin : AttrPlugin
  assertFailed : Bool
  deriving DecidableEq, Repr

/-- The function `ZmqExporter::export_plugin`.  `filterPlugin` stands for
`m_PluginManager.filterPlugin`, which is not among the embedded sources. -/
def export_plugin (filterPlugin : PluginDesc → PluginDesc) (pDesc : PluginDesc) :
    ExportResult :=
  let pluginDesc := filterPlugin pDesc
  if pluginDesc.pluginID = "" then
    { sent := [], plugin := AttrPlugin.empty, assertFailed := false }
  else
    let name := pluginDesc.pluginName
    let s : ExportState :=
      { m_Client := [VRayMessage.createPlugin name pluginDesc.pluginID]
        timeSet := false, lastTime := 0, assertFailed := false }
    let s := pluginDesc.pluginAttrs.foldl (exportAttr name) s
    { sent := s.m_Client, plugin := { plugin := name, output := "" }
      assertFailed := s.assertFailed }

/-- The attribute-update messages among a list of messages. -/
def attrUpdates (msgs : List VRayMessage) : List VRayMessage :=
  msgs.filter fun m => match m with
    | .pluginAttr _ _ _ => true
    | _ => false

/-- The `setCurrentTime` messages among a list of messages. -/
def timeUpdates (msgs : List VRayMessage) : List VRayMessage :=
  msgs.filter fun m => match m with
    | .rendererAction .SetCurrentTime _ => true
    | _ => false

/-! ## Image pipeline (`ZmqRenderImage`, `ZmqExporter::get_image`) -/

/-- The 32-bit words (floats, little endian) held by a byte buffer: the view
`reinterpret_cast<const float *>(data)` of a payload. -/
def wordsOfBytes : List Nat → List Nat
  | b0 :: b1 :: b2 :: b3 :: rest =>
    (b0 + b1 * 256 + b2 * 65536 + b3 * 16777216) :: wordsOfBytes rest
  | _ => []

/-- Modelled from the spec: `RenderImage`, a buffer of `width*height*4` 32-bit floats with
`width`, `height` (members `w`, `h`, `pixels`); `pixels = none` is the null pointer. -/
structure RenderImage where
  w : Nat
  h : Nat
  pixels : Option (List Nat)
  deriving DecidableEq, Repr

/-- Modelled from the spec: the default constructed `RenderImage`, the empty result that is
returned when no image has been received. -/
def RenderImage.empty : RenderImage := { w := 0, h := 0, pixels := none }

/-- The signature of `jpegToPixelData(data, size)`: the decoded float buffer, or `none` for
the null pointer it returns when the payload does not decode.  The decoding itself is done by
`libjpeg` and is a parameter of the embedding. -/
abbrev JpegDecoder := List Nat → Nat → Option (List Nat)

/-- The copy `memcpy(dst, src, n * sizeof(float))` out of a float buffer.  (A source shorter
than `n` floats is read out of bounds by the program; the embedding then copies what there
is.) -/
def copyFloats (src : List Nat) (n : Nat) : List Nat := src.take n

/-- The function `ZmqRenderImage::update`, applied to the image of the message. -/
def ZmqRenderImage.update (jpegToPixelData : JpegDecoder) (self : RenderImage)
    (img : AttrImage) : RenderImage :=
  match img.imageType with
  | .JPG =>
    let imgData := jpegToPixelData img.data img.size
    { w := img.width, h := img.height, pixels := imgData }
  | .RGBA_REAL =>
    let myImage := copyFloats (wordsOfBytes img.data) (img.width * img.height * 4)
    { w := img.width, h := img.height, pixels := some myImage }
  | .other => self

/-- The function `ZmqExporter::get_image`, applied to `m_CurrentImage`. -/
def get_image (m_CurrentImage : RenderImage) : RenderImage :=
  match m_CurrentImage.pixels with
  | some pixels =>
    { w := m_CurrentImage.w, h := m_CurrentImage.h
      pixels := some (copyFloats pixels (m_CurrentImage.w * m_CurrentImage.h * 4)) }
  | none => RenderImage.empty

/-- A raw image message: encoding `RGBA_REAL`, the given dimensions and payload bytes. -/
def rawImage (width height : Nat) (data : List Nat) : AttrImage :=
  { imageType := .RGBA_REAL, data := data, size := data.length, width := width
    height := height, x := 0, y := 0, isBucket := false }

/-- A compressed image message: encoding `JPG`, the given dimensions and payload bytes. -/
def jpgImage (width height : Nat) (data : List Nat) : AttrImage :=
  { imageType := .JPG, data := data, size := data.length, width := width
    height := height, x := 0, y := 0, isBucket := false }

/-- A decoder that rejects every payload. -/
def rejectingDecoder : JpegDecoder := fun _ _ => none

/-- A one pixel image: the float words 1, 2, 3, 4 as bytes. -/
def onePixelBytes : List Nat := [1, 0, 0, 0, 2, 0, 0, 0, 3, 0, 0, 0, 4, 0, 0, 0]

/-! ## Frame driver (`ProductionExporter`) -/

/-- The enumerators of `ExporterType` that the embedded code names; `other` stands for any
further enumerator. -/
inductive ExporterType where
  | ExpoterTypeFile
  | ExpoterTypeZMQ
  | other
  deriving DecidableEq, Repr

/-- The enumerators of `ExporterSettings::WorkMode` that the embedded code names; `other`
stands for any further enumerator. -/
inductive WorkMode where
  | WorkModeExportOnly
  | WorkModeRenderAndExport
  | other
  deriving DecidableEq, Repr

/-- The enumerators of `SettingsAnimation::AnimationMode` that the embedded code names;
`other` stands for any further enumerator. -/
inductive AnimationMode where
  | AnimationModeFullCamera
  | AnimationModeFullNoGeometry
  | AnimationModeCameraLoop
  | other
  deriving DecidableEq, Repr

/-- The members of `m_settings.settings_animation` that the frame driver reads. -/
structure SettingsAnimation where
  use : Bool
  mode : AnimationMode
  deriving DecidableEq, Repr

/-- The members of `m_settings` that the frame driver reads. -/
structure ExporterSettings where
  exporter_type : ExporterType
  work_mode : WorkMode
  settings_animation : SettingsAnimation
  deriving DecidableEq, Repr

/-- What one iteration of the loop of `wait_for_frame_render` reads of the state that other
threads write: `m_exporter->get_last_rendered_frame()` at the loop check and, in the body,
`SceneExporter::is_interrupted()`, `ZmqServer::isRunning()`, the members
`m_isAnimationRunning` and `m_renderFinished`, and `m_exporter->is_aborted()`. -/
structure Poll where
  get_last_rendered_frame : Int
  interrupted : Bool
  isRunning : Bool
  m_isAnimationRunning : Bool
  m_renderFinished : Bool
  is_aborted : Bool
  deriving DecidableEq, Repr

/-- The function `ProductionExporter::is_interrupted`, on the state read in `p`. -/
def is_interrupted (m_settings : ExporterSettings) (p : Poll) : Bool :=
  let is_interrupted := p.interrupted
  let is_interrupted :=
    if m_settings.exporter_type = .ExpoterTypeZMQ then is_interrupted || !p.isRunning
    else is_interrupted
  if m_settings.settings_animation.use then is_interrupted || !p.m_isAnimationRunning
  else is_interrupted || p.m_renderFinished

/-- The calls of the frame driver that are recorded: on the transport (`set_current_frame`,
`commit_changes`, `start`, `export_vrscene`, `stop`, `free`), the synchronization passes
`sync(false)` and `sync_view(false)` (with the value of `settings_animation.frame_current`
they run at), `render_start()`, the start of the render thread and its `join()`,
`m_frameExporter.reset()`, and the return of `wait_for_frame_render` with its result.
Locks, logging, timing and the calls into the host application are not recorded. -/
inductive Event where
  | render_start
  | thread_start
  | set_current_frame (frame : Int)
  | sync (frame_current : Int)
  | sync_view (frame_current : Int)
  | commit_changes
  | start
  | wait_returned (result : Bool)
  | frame_reset
  | export_vrscene
  | join
  | stop
  | free
  deriving DecidableEq, Repr

/-- The result of a wait: it returned `result`, leaving the observations `rest` unread, or
it is still looping when the observations end. -/
inductive WaitResult where
  | returned (result : Bool) (rest : List Poll)
  | waiting
  deriving DecidableEq, Repr

/-- The `while` loop of `wait_for_frame_render`, one observation per iteration: the loop
ends when the last rendered frame is the current render frame; otherwise an interruption or
an abort sets `stop` and breaks.  The value is `!stop`. -/
def waitLoop (m_settings : ExporterSettings) (currentRenderFrame : Int) :
    List Poll → WaitResult
  | [] => .waiting
  | p :: rest =>
    if p.get_last_rendered_frame ≠ currentRenderFrame then
      if is_interrupted m_settings p then .returned false rest
      else if p.is_aborted then .returned false rest
      else waitLoop m_settings currentRenderFrame rest
    else .returned true rest

/-- The function `ProductionExporter::wait_for_frame_render`: `m_exporter->start()`, then the
loop. -/
def wait_for_frame_render (m_settings : ExporterSettings) (currentRenderFrame : Int)
    (polls : List Poll) : List Event × WaitResult :=
  ([Event.start], waitLoop m_settings currentRenderFrame polls)

/-- What the frame sequence `m_frameExporter` (a `FrameExportManager`, which is not among the
embedded sources) yields at one call of the callback of `forEachExportFrame`:
`getCurrentFrame()` and `getCurrentRenderFrame()`. -/
structure ExportFrame where
  getCurrentFrame : Int
  getCurrentRenderFrame : Int
  deriving DecidableEq, Repr

/-- What the frame sequence yields in one iteration of the render-frame loop: the export
frames that `forEachExportFrame` visits, and `getCurrentRenderFrame()` after it. -/
structure RenderFrame where
  exportFrames : List ExportFrame
  getCurrentRenderFrame : Int
  deriving DecidableEq, Repr

/-- The callback that `export_scene` hands to `forEachExportFrame`. -/
def exportFrameEvents (m_settings : ExporterSettings) (isFirstExport : Bool)
    (frameExp : ExportFrame) : List Event :=
  let aMode := m_settings.settings_animation.mode
  [ if aMode = .AnimationModeCameraLoop then
      Event.set_current_frame (frameExp.getCurrentRenderFrame + 1)
    else Event.set_current_frame frameExp.getCurrentFrame,
    if !isFirstExport &&
        (aMode = .AnimationModeFullCamera || aMode = .AnimationModeCameraLoop) then
      Event.sync_view frameExp.getCurrentFrame
    else Event.sync frameExp.getCurrentFrame ]

/-- The call `m_frameExporter.forEachExportFrame(callback)`: the callback runs for each
export frame; the second component is `isFirstExport` afterwards. -/
def forEachExportFrame (m_settings : ExporterSettings) :
    Bool → List ExportFrame → List Event × Bool
  | isFirstExport, [] => ([], isFirstExport)
  | isFirstExport, frameExp :: frames =>
    let r := forEachExportFrame m_settings false frames
    (exportFrameEvents m_settings isFirstExport frameExp ++ r.1, r.2)

/-- The render-frame loop of `export_scene`.  `commitAutoOn` is the truth value of
`m_exporter->get_commit_state() == CommitAutoOn`.  The second component tells whether the
loop has ended (`false`: a wait is still looping when the observations end). -/
def frameLoop (m_settings : ExporterSettings) (commitAutoOn : Bool) :
    Bool → List RenderFrame → List Poll → List Event × Bool
  | _, [], _ => ([], true)
  | isFirstExport, frame :: frames, polls =>
    let r := forEachExportFrame m_settings isFirstExport frame.exportFrames
    let sent :=
      r.1 ++ [Event.set_current_frame frame.getCurrentRenderFrame] ++
        (if commitAutoOn then [] else [Event.commit_changes])
    if m_settings.exporter_type = .ExpoterTypeFile then
      let k := frameLoop m_settings commitAutoOn r.2 frames polls
      (sent ++ k.1, k.2)
    else
      let w := wait_for_frame_render m_settings frame.getCurrentRenderFrame polls
      match w.2 with
      | .returned true rest =>
        let k := frameLoop m_settings commitAutoOn r.2 frames rest
        (sent ++ w.1 ++ [Event.wait_returned true] ++ k.1, k.2)
      | .returned false _ => (sent ++ w.1 ++ [Event.wait_returned false], true)
      | .waiting => (sent ++ w.1, false)

/-- The function `ProductionExporter::render_end`, as far as the transport sees it. -/
def render_end (m_settings : ExporterSettings) : List Event :=
  if m_settings.exporter_type ≠ .ExpoterTypeFile then [Event.stop, Event.free] else []

/-- How a run of `export_scene` ends: it returns, it leaves by the exception of
`renderThread.join()` on a thread that was never started (what `BLI_assert` guards
against), or it is still in a wait when the observations end. -/
inductive Outcome where
  | returned
  | threw
  | waiting
  deriving DecidableEq, Repr

/-- A run of `export_scene`: the recorded calls, oldest first, and how the run ends. -/
structure Run where
  trace : List Event
  outcome : Outcome
  deriving DecidableEq, Repr

/-- The function `ProductionExporter::export_scene`, for the render frames `frames` that the
frame sequence yields and the observations `polls` that the waits make. -/
def export_scene (m_settings : ExporterSettings) (commitAutoOn : Bool)
    (frames : List RenderFrame) (polls : List Poll) : Run :=
  let isFileExport : Bool := m_settings.exporter_type = .ExpoterTypeFile
  let threadStarted : Bool := !isFileExport && m_settings.work_mode ≠ .WorkModeExportOnly
  let opening :=
    (if isFileExport then [] else [Event.render_start]) ++
      (if threadStarted then [Event.thread_start] else [])
  let loop := frameLoop m_settings commitAutoOn true frames polls
  if loop.2 = false then { trace := opening ++ loop.1, outcome := .waiting }
  else
    let closing :=
      [Event.frame_reset] ++
        (if m_settings.work_mode = .WorkModeExportOnly ∨
            m_settings.work_mode = .WorkModeRenderAndExport then [Event.export_vrscene]
          else [])
    if isFileExport then
      { trace := opening ++ loop.1 ++ (closing ++ [Event.free]), outcome := .returned }
    else if threadStarted then
      { trace := opening ++ loop.1 ++
          (closing ++ [Event.join] ++ render_end m_settings ++ [Event.free])
        outcome := .returned }
    else { trace := opening ++ loop.1 ++ (closing ++ [Event.join]), outcome := .threw }

/-- Whether an event is a synchronization pass. -/
def Event.isSync : Event → Bool
  | .sync _ => true
  | .sync_view _ => true
  | _ => false

/-- Whether an event belongs to the export of a frame: the calls made between the top of
the render-frame loop and the loop of the wait. -/
def Event.isExport : Event → Bool
  | .set_current_frame _ => true
  | .sync _ => true
  | .sync_view _ => true
  | .commit_changes => true
  | .start => true
  | _ => false

/-- Whether an event belongs to the part of `export_scene` after the render-frame loop. -/
def Event.isClosing : Event → Bool
  | .frame_reset => true
  | .export_vrscene => true
  | .join => true
  | .stop => true
  | .free => true
  | _ => false

/-- A render frame with one export frame of the same number. -/
def plainFrame (frame : Int) : RenderFrame :=
  { exportFrames := [{ getCurrentFrame := frame, getCurrentRenderFrame := frame }]
    getCurrentRenderFrame := frame }

/-- Settings of a ZMQ animation render. -/
def zmqAnimation : ExporterSettings :=
  { exporter_type := .ExpoterTypeZMQ, work_mode := .other
    settings_animation := { use := true, mode := .other } }

/-- Settings of a ZMQ animation in the work mode that only exports. -/
def zmqExportOnly : ExporterSettings :=
  { exporter_type := .ExpoterTypeZMQ, work_mode := .WorkModeExportOnly
    settings_animation := { use := true, mode := .other } }

/-- An observation with the given last rendered frame and user interruption, nothing else
stopping the wait. -/
def pollAt (lastRendered : Int) (interrupted : Bool) : Poll :=
  { get_last_rendered_frame := lastRendered, interrupted := interrupted, isRunning := true
    m_isAnimationRunning := true, m_renderFinished := false, is_aborted := false }

/-- The cancellation scenario: frame 1 is rendered at the second observation; the wait for
frame 2 sees the interruption at its second observation. -/
def cancelPolls : List Poll :=
  [pollAt 0 false, pollAt 1 false, pollAt 1 false, pollAt 1 true, pollAt 3 false]

/-- Observations under which the three frames are rendered one after the other. -/
def donePolls : List Poll :=
  [pollAt 0 false, pollAt 1 false, pollAt 1 false, pollAt 2 false, pollAt 3 false]

/-! ## Bucket compositing (`ProductionExporter::cb_on_bucket_ready`) -/

/-- The members of the render pass of the host application that the callback reads:
`fullname()`, the float buffer `rect` (bit patterns) and its dimensions `rectx`, `recty`,
`channels`; `valid` is the truth value of the pass handle. -/
structure RenderPass where
  valid : Bool
  fullname : String
  rect : List Nat
  rectx : Nat
  recty : Nat
  channels : Nat
  deriving DecidableEq, Repr

/-- A render layer of the host application: its passes. -/
structure RenderLayer where
  passes : List RenderPass
  deriving DecidableEq, Repr

/-- A render result of the host application: its layers. -/
structure RenderResult where
  layers : List RenderLayer
  deriving DecidableEq, Repr

/-- The members of `ProductionExporter` that `cb_on_bucket_ready` touches; `assertFailed`
records that `BLI_assert(img.isBucket())` failed (the callback is embedded as it runs when
the assertion does not abort). -/
structure BucketState where
  m_renderResultsList : List RenderResult
  m_imageDirty : Bool
  assertFailed : Bool
  deriving DecidableEq, Repr

/-- Whether the float at index `i` of a buffer with rows of `destW` pixels, `destH` rows and
`channels` floats per pixel belongs to a pixel of the rectangle `(x, y, w, h)`. -/
def inRegion (destW destH channels x y w h i : Nat) : Bool :=
  let col := (i / channels) % destW
  let row := (i / channels) / destW
  decide (x ≤ col) && decide (col < x + w) && decide (y ≤ row) && decide (row < y + h) &&
    decide (row < destH)

/-- Modelled from the spec: `RenderImage::updateImageRegion` (defined in a file that is not
among the embedded sources) writes a partial rectangular region with the placement
`(x, y, sourceW, sourceH)` into the buffer `dest`: the floats of the pixels of the rectangle
are taken from `source`, row by row; every other float stays. -/
def updateImageRegion (dest : List Nat) (destW destH x y : Nat) (source : List Nat)
    (sourceW sourceH channels : Nat) : List Nat :=
  dest.mapIdx fun i v =>
    if inRegion destW destH channels x y sourceW sourceH i then
      source.getD
        ((((i / channels) / destW - y) * sourceW + ((i / channels) % destW - x)) * channels +
          i % channels) v
    else v

/-- The call of `updateImageRegion` in `cb_on_bucket_ready`, on the pass `bPass`. -/
def updatePass (img : AttrImage) (bPass : RenderPass) : RenderPass :=
  { bPass with
    rect := updateImageRegion bPass.rect bPass.rectx bPass.recty img.x img.y
      (wordsOfBytes img.data) img.width img.height bPass.channels }

/-- The loop of `cb_on_bucket_ready` over the passes of a layer: the first valid pass named
`"Combined"` is updated, then the loop breaks. -/
def updatePasses (img : AttrImage) : List RenderPass → List RenderPass
  | [] => []
  | pass :: passes =>
    if pass.valid && pass.fullname = "Combined" then updatePass img pass :: passes
    else pass :: updatePasses img passes

/-- The function `ProductionExporter::cb_on_bucket_ready`. -/
def cb_on_bucket_ready (self : BucketState) (img : AttrImage) : BucketState :=
  if img.isBucket = false then { self with assertFailed := true }
  else
    { self with
      m_imageDirty := true
      m_renderResultsList := self.m_renderResultsList.map fun result =>
        { layers := result.layers.map fun layer =>
            { passes := updatePasses img layer.passes } } }

/-- The pass `p` of the layer `l` of the render result `r`. -/
def passAt (results : List RenderResult) (r l p : Nat) : Option RenderPass :=
  results[r]?.bind fun result => result.layers[l]?.bind fun layer => layer.passes[p]?

/-- The rectangles of two image messages do not overlap. -/
def disjointRects (a b : AttrImage) : Prop :=
  a.x + a.width ≤ b.x ∨ b.x + b.width ≤ a.x ∨ a.y + a.height ≤ b.y ∨
    b.y + b.height ≤ a.y

/-- A bucket message with the placement `(x, y, width, height)` and the payload `data`. -/
def bucketImage (x y width height : Nat) (data : List Nat) : AttrImage :=
  { imageType := .RGBA_REAL, data := data, size := data.length, width := width
    height := height, x := x, y := y, isBucket := true }

/-- A buffer of four rows of four one-channel pixels, all zero, as the `"Combined"` pass of
one layer that also has a `"Depth"` pass. -/
def sampleResults : List RenderResult :=
  [ { layers :=
      [ { passes :=
          [ { valid := true, fullname := "Depth", rect := List.replicate 16 7, rectx := 4
              recty := 4, channels := 1 },
            { valid := true, fullname := "Combined", rect := List.replicate 16 0, rectx := 4
              recty := 4, channels := 1 } ] } ] } ]

/-- A bucket of two by two pixels at the top left corner, all floats `1`. -/
def sampleBucket1 : AttrImage :=
  bucketImage 0 0 2 2 [1, 0, 0, 0, 1, 0, 0, 0, 1, 0, 0, 0, 1, 0, 0, 0]

/-- A bucket of two by two pixels at the bottom right corner, all floats `2`. -/
def sampleBucket2 : AttrImage :=
  bucketImage 2 2 2 2 [2, 0, 0, 0, 2, 0, 0, 0, 2, 0, 0, 0, 2, 0, 0, 0]

/-- The `"Combined"` pass of the sample results. -/
def sampleCombined : RenderPass :=
  { valid := true, fullname := "Combined", rect := List.replicate 16 0, rectx := 4
    recty := 4, channels := 1 }

/-- The state with the sample results. -/
def sampleBucketState : BucketState :=
  { m_renderResultsList := sampleResults, m_imageDirty := false, assertFailed := false }

/-! ## Auxiliary definitions used in the statements -/

/-- Whether `getAttrHash` has a `case` for the type tag of the value; the other values take
the `default` branch. -/
def AttrValue.hashed : AttrValue → Bool
  | .int _ => true
  | .float _ => true
  | .string _ => true
  | .color _ => true
  | .acolor _ => true
  | .vector _ => true
  | .plugin _ => true
  | .transform _ => true
  | .matrix _ => true
  | .listInt _ => true
  | .listFloat _ => true
  | .listVector _ => true
  | .listColor _ => true
  | .instancer _ => true
  | .listPlugin _ => true
  | .listString _ => true
  | .mapChannels _ => true
  | _ => false

/-- Whether the type switch of `export_plugin` has a `case` that sends the value. -/
def AttrValue.sendable : AttrValue → Bool
  | .int _ => true
  | .float _ => true
  | .string _ => true
  | .color _ => true
  | .vector _ => true
  | .acolor _ => true
  | .plugin _ => true
  | .transform _ => true
  | .listInt _ => true
  | .listFloat _ => true
  | .listVector _ => true
  | .listColor _ => true
  | .listPlugin _ => true
  | .listString _ => true
  | .mapChannels _ => true
  | .instancer _ => true
  | _ => false

/-- Whether a message is a `SetCurrentTime` control message. -/
def VRayMessage.isSetCurrentTime : VRayMessage → Bool
  | .rendererAction .SetCurrentTime _ => true
  | _ => false

/-- The messages of a list that are not `SetCurrentTime` control messages. -/
def withoutTimes (msgs : List VRayMessage) : List VRayMessage :=
  msgs.filter fun m => !m.isSetCurrentTime

/-- The attribute-update message of `export_plugin` for the attribute `attr` of the entity
`name`. -/
def attrMessage (name : String) (attr : PluginAttr) : VRayMessage :=
  .pluginAttr name attr.attrName attr.attrValue

namespace PluginManager

/-- The digest of one attribute as `makeHash` computes it. -/
def attrDigest (H : HashFn) (attr : PluginAttr) : MHash :=
  getAttrHash H attr.attrValue 42

/-- The chaining step of the composite digest. -/
def chainDigest (H : HashFn) (allHash : MHash) (attr : PluginAttr) : MHash :=
  getValueHash H (bytesOfWord (attrDigest H attr)) allHash

/-- The cache entry that `updateCache` writes for `desc`. -/
def updatedEntry (H : HashFn) (storeData : Bool) (desc : PluginDesc) (frame : Int) :
    PluginDescHash :=
  if storeData then { makeHash H desc with m_desc := desc, m_frame := some frame }
  else makeHash H desc

/-- The comparison that the loop of `diffWithCache` makes for one attribute of the
description: the attribute is absent from the cached per-attribute digest map, or its digest
differs from the cached digest. -/
def attrChanged (H : HashFn) (cacheAttrMap : HashMap MHash) (attr : PluginAttr) : Bool :=
  match HashMap.find cacheAttrMap attr.attrName with
  | none => true
  | some cacheHash => decide (attrDigest H attr ≠ cacheHash)

/-- An attribute as `res.add(attr.attrName, attr.attrValue)` stores it: name and value kept,
time stamp at its default. -/
def readded (attr : PluginAttr) : PluginAttr :=
  { attrName := attr.attrName, attrValue := attr.attrValue, time := 0 }

/-- The name and the value of an attribute. -/
def nameValue (attr : PluginAttr) : String × AttrValue := (attr.attrName, attr.attrValue)

/-- The operations that change a cache. -/
inductive CacheOp where
  | update (desc : PluginDesc) (frame : Int)
  | remove (pluginName : String)
  | clear
  deriving DecidableEq, Repr

/-- The effect of one cache operation. -/
def applyOp (H : HashFn) (pm : PluginManager) : CacheOp → PluginManager
  | .update desc frame => pm.updateCache H desc frame
  | .remove pluginName => pm.remove pluginName
  | .clear => pm.clear

/-- The state reached from `pm` by a sequence of cache operations. -/
def applyOps (H : HashFn) (pm : PluginManager) (ops : List CacheOp) : PluginManager :=
  ops.foldl (applyOp H) pm

/-- A freshly constructed manager: empty cache. -/
def init (storeData : Bool) : PluginManager :=
  { m_cache := [], m_storeData := storeData }

/-- The predicate: the operation is not an `updateCache` of a description named `name`. -/
def CacheOp.avoids (name : String) : CacheOp → Bool
  | .update desc _ => decide (desc.pluginName ≠ name)
  | _ => true

end PluginManager

/-! ## Reference hash function and sample data -/

/-- Rotation of a 32-bit word to the left. -/
def rotl32 (x r : Nat) : Nat := ((x <<< r) ||| (x >>> (32 - r))) % 4294967296

/-- The scrambling of one key block in MurmurHash3. -/
def murmurScramble (k1 : Nat) : Nat :=
  let k1 := k1 * 0xcc9e2d51 % 4294967296
  let k1 := rotl32 k1 15
  k1 * 0x1b873593 % 4294967296

/-- The body and the tail of MurmurHash3 over the key bytes. -/
def murmurBody (h1 : Nat) : List Nat → Nat
  | b0 :: b1 :: b2 :: b3 :: rest =>
    let k1 := b0 + b1 * 256 + b2 * 65536 + b3 * 16777216
    let h1 := h1 ^^^ murmurScramble k1
    let h1 := rotl32 h1 13
    murmurBody ((h1 * 5 + 0xe6546b64) % 4294967296) rest
  | [b0, b1, b2] => h1 ^^^ murmurScramble (b0 ^^^ (b1 <<< 8) ^^^ (b2 <<< 16))
  | [b0, b1] => h1 ^^^ murmurScramble (b0 ^^^ (b1 <<< 8))
  | [b0] => h1 ^^^ murmurScramble b0
  | [] => h1

/-- The finalization mix of MurmurHash3. -/
def fmix32 (h : Nat) : Nat :=
  let h := h ^^^ (h >>> 16)
  let h := h * 0x85ebca6b % 4294967296
  let h := h ^^^ (h >>> 13)
  let h := h * 0xc2b2ae35 % 4294967296
  h ^^^ (h >>> 16)

/-- The published reference algorithm `MurmurHash3_x86_32` (A. Appleby, public domain), the
function that `utils/cgr_hash.h` names.  Its text is not among the embedded sources, and no
general theorem below depends on it: every definition takes the hash function as the
parameter `H`.  It instantiates `H` in the closed examples. -/
def MurmurHash3_x86_32 : HashFn := fun key seed =>
  fmix32 (murmurBody seed key ^^^ (key.length % 4294967296))

/-- The bit pattern of the float `1.0f`. -/
def floatOne : Nat := 0x3f800000

/-- The identity transform: unit matrix, zero offset. -/
def identityTransform : AttrTransform :=
  { m := { v0 := ⟨floatOne, 0, 0⟩, v1 := ⟨0, floatOne, 0⟩, v2 := ⟨0, 0, floatOne⟩ }
    offs := ⟨0, 0, 0⟩ }

/-- The attribute `transform` of the end-to-end scenario: the identity transform. -/
def transformAttr (time : Int) : PluginAttr :=
  { attrName := "transform", attrValue := .transform identityTransform, time := time }

/-- The attribute `material` of the end-to-end scenario: a reference to the plugin `mtl`. -/
def materialAttr (mtl : String) (time : Int) : PluginAttr :=
  { attrName := "material", attrValue := .plugin { plugin := mtl, output := "" }, time := time }

/-- The description of the end-to-end scenario: `"Box"` of kind `"Node"` with an identity
transform and the material `mtl`, all attributes stamped with `time`. -/
def boxDesc (mtl : String) (time : Int) : PluginDesc :=
  { pluginName := "Box", pluginID := "Node"
    pluginAttrs := [materialAttr mtl time, transformAttr time] }

/-- A description `"Box"` of kind `"Node"` with a sendable attribute, an attribute of kind
`Unknown` and another sendable attribute. -/
def mixedDesc : PluginDesc :=
  { pluginName := "Box", pluginID := "Node"
    pluginAttrs :=
      [ { attrName := "objectID", attrValue := .int 7, time := 0 },
        { attrName := "scene_name", attrValue := .unknown, time := 0 },
        { attrName := "visible", attrValue := .int 1, time := 0 } ] }

/-- The bit pattern of the float `-0.0f`. -/
def floatNegZero : Nat := 0x80000000

/-- The sparse description expected of the end-to-end scenario: only the material. -/
def boxDiff (mtl : String) : PluginDesc :=
  { pluginName := "Box", pluginID := "Node", pluginAttrs := [materialAttr mtl 0] }

/-- A description with one attribute. -/
def singleDesc (pluginName pluginID attrName : String) (v : AttrValue) : PluginDesc :=
  { pluginName := pluginName, pluginID := pluginID
    pluginAttrs := [ { attrName := attrName, attrValue := v, time := 0 } ] }

/-- A description with one `Int` attribute. -/
def intDesc (pluginName pluginID attrName : String) (v : Int) : PluginDesc :=
  singleDesc pluginName pluginID attrName (.int v)

/-- A description `"Box"` of kind `"Node"` with two `Int` attributes stamped `t1` and `t2`,
enumerated in this order. -/
def timedDesc (t1 t2 : Int) : PluginDesc :=
  { pluginName := "Box", pluginID := "Node"
    pluginAttrs :=
      [ { attrName := "objectID", attrValue := .int 7, time := t1 },
        { attrName := "visible", attrValue := .int 1, time := t2 } ] }

/-! ## Sample values for the hasher -/

/-- A sample object representation of an `AttrPlugin` that refers to the node `"Cube"`: two
`std::string` objects, each a pointer to its character buffer, a length and an inline buffer;
`address` is where the object lies in memory. -/
def sampleNodeRepr (address : Nat) : List Nat :=
  bytesOfWord address ++ [0, 0, 0, 0] ++ [4, 0, 0, 0, 0, 0, 0, 0] ++ [67, 117, 98, 101] ++
    List.replicate 12 0 ++
    bytesOfWord (address + 32) ++ [0, 0, 0, 0] ++ List.replicate 8 0 ++ List.replicate 16 0

/-- An instancer value with one instance of the node `node`, whose `AttrPlugin` object has
the object representation `nodeRepr`. -/
def sampleInstancer (node : String) (nodeRepr : List Nat) : AttrValue :=
  .instancer
    { frameNumber := 1
      data :=
        [ { index := 0, tm := identityTransform, vel := identityTransform
            node := { plugin := node, output := "" }, nodeRepr := nodeRepr } ] }

/-- The description of the end-to-end scenario as a container enumerates it that yields
`transform` before `material`: the name, the kind and the attributes of `boxDesc`, in the
other order. -/
def boxSwapped (mtl : String) (time : Int) : PluginDesc :=
  { pluginName := "Box", pluginID := "Node"
    pluginAttrs := [transformAttr time, materialAttr mtl time] }

/-- A plugin reference without an output socket. -/
def texPlain : AttrPlugin := { plugin := "Tex", output := "" }

/-- A plugin reference whose output socket is named like the plugin. -/
def texSocket : AttrPlugin := { plugin := "Tex", output := "Tex" }

/-- The range of an `int`. -/
def isInt32 (i : Int) : Prop := -2147483648 ≤ i ∧ i < 2147483648

/-- The range of a float bit pattern. -/
def isWord (n : Nat) : Prop := n < 4294967296

/-! ## Lemmas on the key order and the hash-map model -/

theorem codesLt_irrefl (x : List Nat) : codesLt x x = false := by
  induction x with
  | nil => rfl
  | cons a as ih => simp [codesLt, ih]

theorem codesLt_trans (x y z : List Nat) (h1 : codesLt x y = true) (h2 : codesLt y z = true) :
    codesLt x z = true := by
  induction x generalizing y z with
  | nil =>
    cases y with
    | nil => simp [codesLt] at h1
    | cons b bs =>
      cases z with
      | nil => simp [codesLt] at h2
      | cons c cs => simp [codesLt]
  | cons a as ih =>
    cases y with
    | nil => simp [codesLt] at h1
    | cons b bs =>
      cases z with
      | nil => simp [codesLt] at h2
      | cons c cs =>
        simp only [codesLt] at h1 h2 ⊢
        by_cases hab : a < b
        · by_cases hbc : b < c
          · have : a < c := by omega
            simp [this]
          · by_cases hbc2 : b = c
            · subst hbc2
              simp [hab]
            · simp [hbc, hbc2] at h2
        · by_cases hab2 : a = b
          · subst hab2
            simp only [lt_self_iff_false, if_false, if_true] at h1
            by_cases hac : a < c
            · simp [hac]
            · by_cases hac2 : a = c
              · subst hac2
                simp only [lt_self_iff_false, if_false, if_true] at h2 ⊢
                exact ih _ _ h1 h2
              · simp [hac, hac2] at h2
          · simp [hab, hab2] at h1

theorem codesLt_total (x y : List Nat) (h : x ≠ y) :
    codesLt x y = true ∨ codesLt y x = true := by
  induction x generalizing y with
  | nil =>
    cases y with
    | nil => exact absurd rfl h
    | cons b bs => left; rfl
  | cons a as ih =>
    cases y with
    | nil => right; rfl
    | cons b bs =>
      simp only [codesLt]
      by_cases hab : a < b
      · left; simp [hab]
      · by_cases hba : b < a
        · right; simp [hba]
        · have : a = b := by omega
          subst this
          have hne : as ≠ bs := fun e => h (by rw [e])
          simpa using ih bs hne

theorem keyLt_irrefl (a : String) : keyLt a a = false := codesLt_irrefl _

theorem keyLt_trans (a b c : String) (h1 : keyLt a b = true) (h2 : keyLt b c = true) :
    keyLt a c = true := codesLt_trans _ _ _ h1 h2

theorem keyLt_total (a b : String) (h : a ≠ b) : keyLt a b = true ∨ keyLt b a = true := by
  apply codesLt_total
  intro e
  apply h
  have hinj : Function.Injective Char.toNat := by
    intro c d hcd
    exact Char.ext (UInt32.ext (by simpa [Char.toNat] using hcd))
  exact String.ext (List.map_injective_iff.mpr hinj e)

theorem keyLt_asymm (a b : String) (h : keyLt a b = true) : keyLt b a = false := by
  cases hba : keyLt b a with
  | false => rfl
  | true =>
    have := keyLt_trans a b a h hba
    rw [keyLt_irrefl] at this
    exact absurd this (by simp)

theorem keyLt_ne (a b : String) (h : keyLt a b = true) : a ≠ b := by
  intro e
  rw [e, keyLt_irrefl] at h
  exact absurd h (by simp)

theorem nodup_of_pairwise_keyLt (l : List String)
    (h : l.Pairwise fun a b => keyLt a b = true) : l.Nodup :=
  List.Pairwise.imp (fun hab => keyLt_ne _ _ hab) h

namespace HashMap

theorem find_set_self {β : Type} (m : HashMap β) (key : String) (value : β) :
    find (set m key value) key = some value := by
  induction m with
  | nil => simp [set, find]
  | cons e m ih =>
    obtain ⟨k, v⟩ := e
    by_cases hk : k = key
    · simp [set, find, hk]
    · by_cases hlt : keyLt key k = true
      · simp [set, find, hk, hlt]
      · simp [set, find, hk, hlt, ih]

theorem find_set_of_ne {β : Type} (m : HashMap β) (key other : String) (value : β)
    (h : key ≠ other) : find (set m key value) other = find m other := by
  induction m with
  | nil => simp [set, find, h]
  | cons e m ih =>
    obtain ⟨k, v⟩ := e
    by_cases hk : k = key
    · subst hk
      simp [set, find, h]
    · by_cases hlt : keyLt key k = true
      · simp [set, find, hk, hlt, h]
      · by_cases ho : k = other
        · subst ho
          simp [set, find, hk, hlt]
        · simp [set, find, hk, hlt, ho, ih]

theorem find_erase_self {β : Type} (m : HashMap β) (key : String) :
    find (erase m key) key = none := by
  induction m with
  | nil => simp [erase, find]
  | cons e m ih =>
    obtain ⟨k, v⟩ := e
    by_cases hk : k = key
    · simpa [erase, List.filter_cons, hk] using ih
    · simpa [erase, List.filter_cons, hk, find] using ih

theorem find_erase_of_ne {β : Type} (m : HashMap β) (key other : String) (h : key ≠ other) :
    find (erase m key) other = find m other := by
  induction m with
  | nil => simp [erase, find]
  | cons e m ih =>
    obtain ⟨k, v⟩ := e
    by_cases hk : k = key
    · subst hk
      simpa [erase, List.filter_cons, find, h] using ih
    · by_cases ho : k = other
      · subst ho
        simp [erase, List.filter_cons, hk, find]
      · simpa [erase, List.filter_cons, hk, find, ho] using ih

theorem find_eq_none_iff {β : Type} (m : HashMap β) (key : String) :
    find m key = none ↔ key ∉ m.map Prod.fst := by
  induction m with
  | nil => simp [find]
  | cons e m ih =>
    obtain ⟨k, v⟩ := e
    by_cases hk : k = key
    · simp [find, hk]
    · have hk2 : ¬ key = k := fun h => hk h.symm
      simp [find, hk, hk2, ih]

/-- A key that comes after all keys of the map is placed at the end. -/
theorem set_of_forall_lt {β : Type} (m : HashMap β) (key : String) (value : β)
    (h : ∀ k ∈ m.map Prod.fst, keyLt k key = true) : set m key value = m ++ [(key, value)] := by
  induction m with
  | nil => simp [set]
  | cons e m ih =>
    obtain ⟨k, v⟩ := e
    have hlt : keyLt k key = true := h k (by simp)
    have hk : ¬ k = key := keyLt_ne _ _ hlt
    have hnot : keyLt key k = false := keyLt_asymm _ _ hlt
    have hm : ∀ k2 ∈ m.map Prod.fst, keyLt k2 key = true := by
      intro k2 hk2
      apply h
      simp only [List.map_cons, List.mem_cons]
      exact Or.inr hk2
    simp [set, hk, hnot, ih hm]

end HashMap

/-! ## Lemmas on `makeHash` -/

namespace PluginManager

theorem foldl_makeHashStep_allHash (H : HashFn) (l : List PluginAttr) (h : PluginDescHash) :
    (l.foldl (makeHashStep H) h).m_allHash = l.foldl (chainDigest H) h.m_allHash := by
  induction l generalizing h with
  | nil => rfl
  | cons a l ih =>
    simp only [List.foldl_cons]
    rw [ih]
    rfl

theorem foldl_makeHashStep_desc (H : HashFn) (l : List PluginAttr) (h : PluginDescHash) :
    (l.foldl (makeHashStep H) h).m_desc = h.m_desc ∧
      (l.foldl (makeHashStep H) h).m_frame = h.m_frame := by
  induction l generalizing h with
  | nil => exact ⟨rfl, rfl⟩
  | cons a l ih =>
    simp only [List.foldl_cons]
    rw [(ih _).1, (ih _).2]
    exact ⟨rfl, rfl⟩

theorem foldl_makeHashStep_attrHashes (H : HashFn) (l : List PluginAttr) (h : PluginDescHash)
    (hsorted : (l.map PluginAttr.attrName).Pairwise fun a b => keyLt a b = true)
    (hacc : ∀ a ∈ l, ∀ k ∈ h.m_attrHashes.map Prod.fst, keyLt k a.attrName = true) :
    (l.foldl (makeHashStep H) h).m_attrHashes =
      h.m_attrHashes ++ l.map fun a => (a.attrName, attrDigest H a) := by
  induction l generalizing h with
  | nil => simp
  | cons a l ih =>
    simp only [List.foldl_cons]
    have hs2 : (l.map PluginAttr.attrName).Pairwise fun a b => keyLt a b = true :=
      (List.pairwise_cons.mp hsorted).2
    have hlt : ∀ n ∈ l.map PluginAttr.attrName, keyLt a.attrName n = true :=
      (List.pairwise_cons.mp hsorted).1
    have hstep : (makeHashStep H h a).m_attrHashes =
        h.m_attrHashes ++ [(a.attrName, attrDigest H a)] := by
      show HashMap.set h.m_attrHashes a.attrName (attrDigest H a) = _
      exact HashMap.set_of_forall_lt _ _ _ (hacc a (List.mem_cons_self _ _))
    rw [ih _ hs2, hstep]
    · simp
    · intro b hb k hmem
      rw [hstep] at hmem
      simp only [List.map_append, List.map_cons, List.map_nil, List.mem_append,
        List.mem_singleton] at hmem
      rcases hmem with hmem | hmem
      · exact hacc b (List.mem_cons_of_mem _ hb) k hmem
      · rw [hmem]
        exact hlt _ (List.mem_map_of_mem _ hb)

theorem makeHash_allHash (H : HashFn) (d : PluginDesc) :
    (makeHash H d).m_allHash = d.pluginAttrs.foldl (chainDigest H) 42 := by
  unfold makeHash
  rw [foldl_makeHashStep_allHash]

theorem makeHash_desc (H : HashFn) (d : PluginDesc) :
    (makeHash H d).m_desc = PluginDesc.create d.pluginName d.pluginID := by
  unfold makeHash
  rw [(foldl_makeHashStep_desc _ _ _).1]

theorem makeHash_attrHashes (H : HashFn) (d : PluginDesc) (hwf : d.WF) :
    (makeHash H d).m_attrHashes = d.pluginAttrs.map fun a => (a.attrName, attrDigest H a) := by
  unfold makeHash
  rw [foldl_makeHashStep_attrHashes H _ _ hwf]
  · simp
  · intro a _ k hk
    simp at hk

theorem updateCache_cache (H : HashFn) (pm : PluginManager) (desc : PluginDesc) (frame : Int) :
    (updateCache H pm desc frame).m_cache =
      HashMap.set pm.m_cache desc.pluginName (updatedEntry H pm.m_storeData desc frame) := by
  unfold updateCache updatedEntry
  rfl

theorem updatedEntry_hashes (H : HashFn) (storeData : Bool) (desc : PluginDesc) (frame : Int) :
    (updatedEntry H storeData desc frame).m_allHash = (makeHash H desc).m_allHash ∧
      (updatedEntry H storeData desc frame).m_attrHashes = (makeHash H desc).m_attrHashes ∧
      (updatedEntry H storeData desc frame).m_desc.pluginID = desc.pluginID ∧
      (updatedEntry H storeData desc frame).m_desc.pluginName = desc.pluginName := by
  unfold updatedEntry
  cases storeData
  · simp [makeHash_desc, PluginDesc.create]
  · simp

theorem find_updateCache_self (H : HashFn) (pm : PluginManager) (desc : PluginDesc)
    (frame : Int) :
    HashMap.find (updateCache H pm desc frame).m_cache desc.pluginName =
      some (updatedEntry H pm.m_storeData desc frame) := by
  rw [updateCache_cache, HashMap.find_set_self]

theorem diffWithCache_of_not_found (H : HashFn) (pm : PluginManager) (desc : PluginDesc)
    (buildDiff : Bool) (h : HashMap.find pm.m_cache desc.pluginName = none) :
    diffWithCache H pm desc buildDiff =
      { first := true, second := PluginDesc.create desc.pluginName desc.pluginID
        assertOk := true } := by
  unfold diffWithCache
  simp only [h]

end PluginManager

/-! ## The attribute-level diff -/

namespace PluginDesc

theorem get_of_mem (l : List PluginAttr) (name kind : String) (a : PluginAttr)
    (hnd : (l.map PluginAttr.attrName).Nodup) (ha : a ∈ l) :
    get { pluginName := name, pluginID := kind, pluginAttrs := l } a.attrName = some a := by
  unfold get
  induction l with
  | nil => cases ha
  | cons b l ih =>
    have hnd2 : (l.map PluginAttr.attrName).Nodup := (List.nodup_cons.mp hnd).2
    have hnot : b.attrName ∉ l.map PluginAttr.attrName := (List.nodup_cons.mp hnd).1
    rcases List.mem_cons.mp ha with hab | hal
    · subst hab
      simp
    · have hne : ¬ b.attrName = a.attrName := by
        intro hba
        apply hnot
        rw [hba]
        exact List.mem_map_of_mem _ hal
      simp only [List.find?_cons, hne, decide_False]
      exact ih hnd2 hal

theorem insertAttr_of_forall_lt (l : List PluginAttr) (attr : PluginAttr)
    (h : ∀ n ∈ l.map PluginAttr.attrName, keyLt n attr.attrName = true) :
    insertAttr l attr = l ++ [attr] := by
  induction l with
  | nil => rfl
  | cons b l ih =>
    have hlt : keyLt b.attrName attr.attrName = true := h _ (by simp)
    have hne : ¬ b.attrName = attr.attrName := keyLt_ne _ _ hlt
    have hnot : keyLt attr.attrName b.attrName = false := keyLt_asymm _ _ hlt
    have hl : ∀ n ∈ l.map PluginAttr.attrName, keyLt n attr.attrName = true := by
      intro n hn
      apply h
      simp only [List.map_cons, List.mem_cons]
      exact Or.inr hn
    simp [insertAttr, hne, hnot, ih hl]

theorem WF.nodup (d : PluginDesc) (hwf : d.WF) : d.attrNames.Nodup :=
  nodup_of_pairwise_keyLt _ hwf

end PluginDesc

namespace PluginManager

theorem addFromDesc_of_mem (desc res : PluginDesc) (a : PluginAttr)
    (hwf : desc.WF) (ha : a ∈ desc.pluginAttrs)
    (hres : ∀ n ∈ res.pluginAttrs.map PluginAttr.attrName, keyLt n a.attrName = true) :
    addFromDesc desc a.attrName res =
      { res with pluginAttrs := res.pluginAttrs ++ [readded a] } := by
  have hget : desc.get a.attrName = some a := by
    have hnd := PluginDesc.WF.nodup desc hwf
    cases desc with
    | mk n k l => exact PluginDesc.get_of_mem l n k a hnd ha
  unfold addFromDesc
  rw [hget]
  show { res with pluginAttrs := PluginDesc.insertAttr res.pluginAttrs (readded a) } = _
  rw [PluginDesc.insertAttr_of_forall_lt res.pluginAttrs (readded a) hres]

/-- The loop of `diffWithCache` in diff-building mode, run over the digests of a part `l` of
the attributes of `desc` (in enumeration order, after the attributes already in `res`),
appends to `res` the changed attributes of `l`. -/
theorem diffLoop_buildDiff (H : HashFn) (cacheAttrMap : HashMap MHash) (desc : PluginDesc)
    (hwf : desc.WF) (l : List PluginAttr) (res : PluginDesc)
    (hl : ∀ a ∈ l, a ∈ desc.pluginAttrs)
    (hlsorted : (l.map PluginAttr.attrName).Pairwise fun a b => keyLt a b = true)
    (hres : ∀ a ∈ l, ∀ n ∈ res.pluginAttrs.map PluginAttr.attrName,
      keyLt n a.attrName = true) :
    diffLoop cacheAttrMap desc true (l.map fun a => (a.attrName, attrDigest H a)) res =
      (false, { res with pluginAttrs :=
        res.pluginAttrs ++ (l.filter (attrChanged H cacheAttrMap)).map readded }) := by
  induction l generalizing res with
  | nil => simp [diffLoop]
  | cons a l ih =>
    have hs2 : (l.map PluginAttr.attrName).Pairwise fun a b => keyLt a b = true :=
      (List.pairwise_cons.mp hlsorted).2
    have hlt : ∀ n ∈ l.map PluginAttr.attrName, keyLt a.attrName n = true :=
      (List.pairwise_cons.mp hlsorted).1
    have hl2 : ∀ b ∈ l, b ∈ desc.pluginAttrs := fun b hb => hl b (List.mem_cons_of_mem _ hb)
    have hadd := addFromDesc_of_mem desc res a hwf (hl a (List.mem_cons_self _ _))
      (hres a (List.mem_cons_self _ _))
    have hres2 : ∀ b ∈ l, ∀ n ∈ res.pluginAttrs.map PluginAttr.attrName,
        keyLt n b.attrName = true :=
      fun b hb => hres b (List.mem_cons_of_mem _ hb)
    have hres3 : ∀ b ∈ l, ∀ n ∈ (res.pluginAttrs ++ [readded a]).map PluginAttr.attrName,
        keyLt n b.attrName = true := by
      intro b hb n hmem
      simp only [List.map_append, List.map_cons, List.map_nil, List.mem_append,
        List.mem_singleton] at hmem
      rcases hmem with hmem | hmem
      · exact hres2 b hb n hmem
      · have hn : n = a.attrName := hmem
        rw [hn]
        exact hlt _ (List.mem_map_of_mem _ hb)
    simp only [List.map_cons, diffLoop]
    cases hfind : HashMap.find cacheAttrMap a.attrName with
    | none =>
      have hch : attrChanged H cacheAttrMap a = true := by simp [attrChanged, hfind]
      simp only [if_true, hadd]
      rw [ih _ hl2 hs2 hres3]
      simp [List.filter_cons, hch]
    | some cacheHash =>
      by_cases hne : attrDigest H a = cacheHash
      · have hch : attrChanged H cacheAttrMap a = false := by simp [attrChanged, hfind, hne]
        simp only [hne, ne_eq, not_true_eq_false, if_false]
        rw [ih _ hl2 hs2 hres2]
        simp [List.filter_cons, hch]
      · have hch : attrChanged H cacheAttrMap a = true := by simp [attrChanged, hfind, hne]
        simp only [hne, ne_eq, not_false_eq_true, if_true, hadd]
        rw [ih _ hl2 hs2 hres3]
        simp [List.filter_cons, hch]

/-- The result of `differences` for a well-formed description whose name has the cache entry
`entry`. -/
theorem differences_of_find (H : HashFn) (pm : PluginManager) (desc : PluginDesc)
    (entry : PluginDescHash) (hwf : desc.WF)
    (hfind : HashMap.find pm.m_cache desc.pluginName = some entry) :
    pm.differences H desc =
      { pluginName := desc.pluginName, pluginID := desc.pluginID
        pluginAttrs :=
          if (makeHash H desc).m_allHash = entry.m_allHash then []
          else (desc.pluginAttrs.filter (attrChanged H entry.m_attrHashes)).map readded } := by
  unfold differences diffWithCache
  simp only [hfind]
  by_cases hall : (makeHash H desc).m_allHash = entry.m_allHash
  · simp [hall, PluginDesc.create]
  · have hloop := diffLoop_buildDiff H entry.m_attrHashes desc hwf desc.pluginAttrs
      (PluginDesc.create desc.pluginName desc.pluginID) (fun a ha => ha) hwf
      (by intro a _ n hn; simp [PluginDesc.create] at hn)
    simp only [makeHash_attrHashes H desc hwf, hloop]
    simp [hall, PluginDesc.create]

end PluginManager

/-! ## Change detection -/

namespace PluginManager

theorem find_digests_of_mem (H : HashFn) (l : List PluginAttr) (b : PluginAttr)
    (hnd : (l.map PluginAttr.attrName).Nodup) (hb : b ∈ l) :
    HashMap.find (l.map fun a => (a.attrName, attrDigest H a)) b.attrName =
      some (attrDigest H b) := by
  induction l with
  | nil => cases hb
  | cons c l ih =>
    have hnd2 : (l.map PluginAttr.attrName).Nodup := (List.nodup_cons.mp hnd).2
    have hnot : c.attrName ∉ l.map PluginAttr.attrName := (List.nodup_cons.mp hnd).1
    rcases List.mem_cons.mp hb with hbc | hbl
    · subst hbc
      simp [HashMap.find]
    · have hne : ¬ c.attrName = b.attrName := by
        intro hcb
        apply hnot
        rw [hcb]
        exact List.mem_map_of_mem _ hbl
      simp only [List.map_cons, HashMap.find, hne, if_false]
      exact ih hnd2 hbl

theorem attrDigest_of_nameValue (H : HashFn) (b b2 : PluginAttr)
    (h : nameValue b2 = nameValue b) : attrDigest H b2 = attrDigest H b := by
  have hv : b2.attrValue = b.attrValue := congrArg Prod.snd h
  unfold attrDigest
  rw [hv]

theorem foldl_chainDigest_map (H : HashFn) (l : List PluginAttr) (seed : MHash) :
    l.foldl (chainDigest H) seed =
      (l.map (attrDigest H)).foldl (fun s d => getValueHash H (bytesOfWord d) s) seed := by
  induction l generalizing seed with
  | nil => rfl
  | cons a l ih =>
    simp only [List.foldl_cons, List.map_cons]
    rw [ih]
    rfl

theorem map_attrDigest_of_nameValue (H : HashFn) (l l2 : List PluginAttr)
    (h : l2.map nameValue = l.map nameValue) :
    l2.map (attrDigest H) = l.map (attrDigest H) := by
  induction l generalizing l2 with
  | nil =>
    cases l2 with
    | nil => rfl
    | cons b l2 => simp at h
  | cons a l ih =>
    cases l2 with
    | nil => simp at h
    | cons b l2 =>
      simp only [List.map_cons, List.cons.injEq] at h ⊢
      exact ⟨attrDigest_of_nameValue H a b h.1, ih l2 h.2⟩

theorem attrChanged_of_nameValue (H : HashFn) (cm : HashMap MHash) (b b2 : PluginAttr)
    (h : nameValue b2 = nameValue b) : attrChanged H cm b2 = attrChanged H cm b := by
  have hn : b2.attrName = b.attrName := congrArg Prod.fst h
  unfold attrChanged
  rw [hn, attrDigest_of_nameValue H b b2 h]

theorem filter_attrChanged_eq_nil (H : HashFn) (cm : HashMap MHash) (l l2 : List PluginAttr)
    (h : l2.map nameValue = l.map nameValue) (hl : ∀ b ∈ l, attrChanged H cm b = false) :
    l2.filter (attrChanged H cm) = [] := by
  rw [List.filter_eq_nil_iff]
  intro b2 hb2
  have hmem : nameValue b2 ∈ l.map nameValue := by
    rw [← h]
    exact List.mem_map_of_mem _ hb2
  obtain ⟨b, hb, hbe⟩ := List.mem_map.mp hmem
  rw [attrChanged_of_nameValue H cm b b2 hbe.symm, hl b hb]
  simp

theorem names_of_nameValue (l l2 : List PluginAttr)
    (h : l2.map nameValue = l.map nameValue) :
    l2.map PluginAttr.attrName = l.map PluginAttr.attrName := by
  have := congrArg (List.map Prod.fst) h
  simpa [List.map_map, Function.comp_def, nameValue] using this

/-- After `updateCache` of a description with the attributes `pre ++ a :: post`, the diff of
a description with the attributes `pre2 ++ a2 :: post2` (same name; `a2` named like `a`; the
attributes of `pre2` and `post2` have the names and values of those of `pre` and `post`)
holds the attribute `a2` alone, provided the composite digests of the two descriptions
differ. -/
theorem differences_one_changed (H : HashFn) (pm : PluginManager) (name kind kind2 : String)
    (pre post pre2 post2 : List PluginAttr) (a a2 : PluginAttr) (f : Int)
    (hwf : (PluginDesc.mk name kind (pre ++ a :: post)).WF)
    (hpre : pre2.map nameValue = pre.map nameValue)
    (hpost : post2.map nameValue = post.map nameValue)
    (hname : a2.attrName = a.attrName)
    (hall : (makeHash H (PluginDesc.mk name kind2 (pre2 ++ a2 :: post2))).m_allHash ≠
      (makeHash H (PluginDesc.mk name kind (pre ++ a :: post))).m_allHash) :
    (pm.updateCache H (PluginDesc.mk name kind (pre ++ a :: post))
        f).differences H (PluginDesc.mk name kind2 (pre2 ++ a2 :: post2)) =
      PluginDesc.mk name kind2 [readded a2] := by
  have hnd : ((pre ++ a :: post).map PluginAttr.attrName).Nodup :=
    PluginDesc.WF.nodup _ hwf
  have hwf2 : (PluginDesc.mk name kind2 (pre2 ++ a2 :: post2)).WF := by
    have h1 := names_of_nameValue pre pre2 hpre
    have h2 := names_of_nameValue post post2 hpost
    unfold PluginDesc.WF PluginDesc.attrNames at hwf ⊢
    simp only [List.map_append, List.map_cons] at hwf ⊢
    rw [h1, h2, hname]
    exact hwf
  have hdig : attrDigest H a2 ≠ attrDigest H a := by
    intro h
    apply hall
    rw [makeHash_allHash, makeHash_allHash, foldl_chainDigest_map, foldl_chainDigest_map]
    simp only [List.map_append, List.map_cons]
    rw [map_attrDigest_of_nameValue H pre pre2 hpre,
      map_attrDigest_of_nameValue H post post2 hpost, h]
  have hh := updatedEntry_hashes H pm.m_storeData
    (PluginDesc.mk name kind (pre ++ a :: post)) f
  have hfind := find_updateCache_self H pm
    (PluginDesc.mk name kind (pre ++ a :: post)) f
  rw [differences_of_find H _ (PluginDesc.mk name kind2 (pre2 ++ a2 :: post2)) _ hwf2 hfind]
  have hmap := makeHash_attrHashes H
    (PluginDesc.mk name kind (pre ++ a :: post)) hwf
  simp only [hh.1, hh.2.1, hmap, if_neg hall]
  have hsame : ∀ b ∈ pre ++ a :: post, attrChanged H
      ((pre ++ a :: post).map fun c => (c.attrName, attrDigest H c)) b = false := by
    intro b hb
    unfold attrChanged
    rw [find_digests_of_mem H _ b hnd hb]
    simp
  have ha2 : attrChanged H
      ((pre ++ a :: post).map fun c => (c.attrName, attrDigest H c)) a2 = true := by
    unfold attrChanged
    rw [hname, find_digests_of_mem H _ a hnd
      (List.mem_append_right _ (List.mem_cons_self _ _))]
    simp [hdig]
  have hpre1 : ∀ b ∈ pre, attrChanged H
      ((pre ++ a :: post).map fun c => (c.attrName, attrDigest H c)) b = false :=
    fun b hb => hsame b (List.mem_append_left _ hb)
  have hpost1 : ∀ b ∈ post, attrChanged H
      ((pre ++ a :: post).map fun c => (c.attrName, attrDigest H c)) b = false :=
    fun b hb => hsame b (List.mem_append_right _ (List.mem_cons_of_mem _ hb))
  generalize ((pre ++ a :: post).map fun c => (c.attrName, attrDigest H c)) = cm
    at ha2 hpre1 hpost1 ⊢
  have hpre2 := filter_attrChanged_eq_nil H cm pre pre2 hpre hpre1
  have hpost2 := filter_attrChanged_eq_nil H cm post post2 hpost hpost1
  simp [List.filter_append, List.filter_cons, hpre2, hpost2, ha2]

end PluginManager

/-! ## The diff cache: stability, new entities, eviction, kind mismatch -/

namespace PluginManager

theorem inCache_eq_false_iff (pm : PluginManager) (name : String) :
    pm.inCache name = false ↔ HashMap.find pm.m_cache name = none := by
  unfold inCache
  cases HashMap.find pm.m_cache name <;> simp

theorem inCache_init (storeData : Bool) (name : String) :
    (init storeData).inCache name = false := by
  simp [init, inCache, HashMap.find]

theorem inCache_applyOp (H : HashFn) (pm : PluginManager) (op : CacheOp) (name : String)
    (hop : op.avoids name = true) (h : pm.inCache name = false) :
    (applyOp H pm op).inCache name = false := by
  rw [inCache_eq_false_iff] at h ⊢
  cases op with
  | update desc frame =>
    have hne : desc.pluginName ≠ name := by simpa [CacheOp.avoids] using hop
    show HashMap.find (updateCache H pm desc frame).m_cache name = none
    rw [updateCache_cache, HashMap.find_set_of_ne _ _ _ _ hne, h]
  | remove pluginName =>
    show HashMap.find (HashMap.erase pm.m_cache pluginName) name = none
    by_cases hn : pluginName = name
    · rw [hn, HashMap.find_erase_self]
    · rw [HashMap.find_erase_of_ne _ _ _ hn, h]
  | clear => rfl

/-- A name that no `updateCache` of the history carried has no entry in the state reached
from an empty cache. -/
theorem inCache_applyOps (H : HashFn) (ops : List CacheOp) (pm : PluginManager) (name : String)
    (hops : ∀ op ∈ ops, op.avoids name = true) (h : pm.inCache name = false) :
    (applyOps H pm ops).inCache name = false := by
  induction ops generalizing pm with
  | nil => exact h
  | cons op ops ih =>
    show (applyOps H (applyOp H pm op) ops).inCache name = false
    apply ih
    · intro o ho
      exact hops o (List.mem_cons_of_mem _ ho)
    · exact inCache_applyOp H pm op name (hops op (List.mem_cons_self _ _)) h

theorem differs_of_find_none (H : HashFn) (pm : PluginManager) (D : PluginDesc)
    (h : HashMap.find pm.m_cache D.pluginName = none) : pm.differs H D = true := by
  unfold differs
  rw [diffWithCache_of_not_found H pm D false h]

/-- C3 (new entity): for every cache state that has no entry for the name of `D`,
`differs(D)` returns `true`.  (By `inCache_init` and `inCache_applyOps` the empty cache and
every state reached from it without an `updateCache` of that name are such states.) -/
theorem differs_of_not_inCache (H : HashFn) (pm : PluginManager) (D : PluginDesc)
    (h : pm.inCache D.pluginName = false) : pm.differs H D = true :=
  differs_of_find_none H pm D ((inCache_eq_false_iff pm D.pluginName).mp h)

/-- The statement of C3 at a state reached by updating and removing other names. -/
theorem differs_of_not_inCache_witness :
    (applyOps MurmurHash3_x86_32 (init true)
        [.update (intDesc "Lamp" "LightOmni" "enabled" 1) 1, .remove "Box",
          .update (intDesc "Cam" "CameraDefault" "fov" 1) 2]).inCache
        (boxDesc "Mtl1" 1).pluginName = false ∧
      (applyOps MurmurHash3_x86_32 (init true)
        [.update (intDesc "Lamp" "LightOmni" "enabled" 1) 1, .remove "Box",
          .update (intDesc "Cam" "CameraDefault" "fov" 1) 2]).differs
        MurmurHash3_x86_32 (boxDesc "Mtl1" 1) = true :=
  ⟨inCache_applyOps _ _ _ _ (by decide) (inCache_init _ _),
    differs_of_not_inCache _ _ _ (inCache_applyOps _ _ _ _ (by decide) (inCache_init _ _))⟩

/-- C4 (eviction): for every cache state and every name, after `remove(name)` the call
`inCache(name)` returns `false`, and `differs(D)` returns `true` for every description `D`
carrying the removed name, also when `D` itself was stored by `updateCache` just before the
`remove`. -/
theorem remove_evicts (H : HashFn) (pm : PluginManager) (name : String) (D : PluginDesc)
    (f : Int) :
    (pm.remove name).inCache name = false ∧
      (pm.remove D.pluginName).differs H D = true ∧
      ((pm.updateCache H D f).remove D.pluginName).differs H D = true := by
  have hrm : ∀ (q : PluginManager) (n : String), (q.remove n).inCache n = false := by
    intro q n
    rw [inCache_eq_false_iff]
    exact HashMap.find_erase_self _ _
  exact ⟨hrm pm name,
    differs_of_find_none H _ D ((inCache_eq_false_iff _ _).mp (hrm pm _)),
    differs_of_find_none H _ D ((inCache_eq_false_iff _ _).mp (hrm _ _))⟩

/-- C7 (kind mismatch): `differsId(desc)` returns `true` if and only if the cache has an
entry for the name of `desc` whose stored kind differs from the kind of `desc`; without an
entry it returns `false`; and in both retain-full-data modes the kind stored by
`updateCache(D, f)` is the kind of `D`, so that afterwards `differsId` of a description
named like `D` is `true` exactly when its kind is not the kind of `D`. -/
theorem differsId_iff (H : HashFn) (pm : PluginManager) (desc D : PluginDesc) (f : Int)
    (kind : String) (attrs : List PluginAttr) :
    (pm.differsId desc = true ↔
        ∃ entry, HashMap.find pm.m_cache desc.pluginName = some entry ∧
          entry.m_desc.pluginID ≠ desc.pluginID) ∧
      (pm.inCache desc.pluginName = false → pm.differsId desc = false) ∧
      ((pm.updateCache H D f).differsId
          { pluginName := D.pluginName, pluginID := kind, pluginAttrs := attrs } = true ↔
        D.pluginID ≠ kind) := by
  refine ⟨?_, ?_, ?_⟩
  · unfold differsId
    cases HashMap.find pm.m_cache desc.pluginName <;> simp
  · intro h
    rw [inCache_eq_false_iff] at h
    unfold differsId
    rw [h]
  · unfold differsId
    simp only [find_updateCache_self, (updatedEntry_hashes H pm.m_storeData D f).2.2.1]
    simp

/-- The statement of C7 at a cache holding `"Box"` as a `"Node"`, asked about a description
without entry. -/
theorem differsId_iff_witness :
    ((init true).updateCache MurmurHash3_x86_32 (boxDesc "Mtl1" 1) 1).inCache
        (intDesc "Lamp" "LightOmni" "enabled" 1).pluginName = false ∧
      ((init true).updateCache MurmurHash3_x86_32 (boxDesc "Mtl1" 1) 1).differsId
        (intDesc "Lamp" "LightOmni" "enabled" 1) = false :=
  ⟨by decide,
    (differsId_iff MurmurHash3_x86_32
      ((init true).updateCache MurmurHash3_x86_32 (boxDesc "Mtl1" 1) 1)
      (intDesc "Lamp" "LightOmni" "enabled" 1) (boxDesc "Mtl1" 1) 1 "Node" []).2.1
      (by decide)⟩

/-- Whatever the hash function, a change of `visible` from `Int 0` to `Float 0.0`, and a
change of a plugin list from `[TexA::out]` to `[TexA, out]`, leave all digests as they
are: `differs` is `false`. -/
theorem differs_false_on_collision (H : HashFn) (storeData : Bool) (f : Int) :
    ((init storeData).updateCache H (intDesc "Box" "Node" "visible" 0) f).differs H
        (singleDesc "Box" "Node" "visible" (.float 0)) = false ∧
      ((init storeData).updateCache H
        (singleDesc "Box" "Node" "exclusion_nodes" (.listPlugin [⟨"TexA", "out"⟩])) f).differs H
          (singleDesc "Box" "Node" "exclusion_nodes"
            (.listPlugin [⟨"TexA", ""⟩, ⟨"out", ""⟩])) = false := by
  constructor
  · cases storeData <;>
    simp [differs, diffWithCache, updateCache, init, makeHash, makeHashStep, intDesc,
      singleDesc, HashMap.set, HashMap.find, HashMap.size, getAttrHash, wordOfInt,
      PluginDesc.create]
  · cases storeData <;>
    simp [differs, diffWithCache, updateCache, init, makeHash, makeHashStep, intDesc,
      singleDesc, HashMap.set, HashMap.find, HashMap.size, getAttrHash, listPluginItemHash,
      PluginDesc.create]

/-- Whatever the hash function, the diff of `"Box"` with the single attribute
`material_id = 1` against the cache entry made from the single attribute `objectID = 1` has
no attributes. -/
theorem differences_nil_on_rename (H : HashFn) (storeData : Bool) (f : Int) :
    (((init storeData).updateCache H (intDesc "Box" "Node" "objectID" 1) f).differences H
      (intDesc "Box" "Node" "material_id" 1)).pluginAttrs = [] := by
  cases storeData <;>
    simp [differences, diffWithCache, updateCache, init, makeHash, makeHashStep, intDesc,
      singleDesc, HashMap.set, HashMap.find, HashMap.size, getAttrHash, wordOfInt,
      PluginDesc.create]

end PluginManager

/-! ## The claims on `differences` and the end-to-end scenario -/

namespace PluginManager

end PluginManager

/-! ## The transport: `export_plugin` -/

/-- C8 (empty kind): for every description whose kind is empty, `filterPlugin` leaving name
and kind unchanged, `export_plugin` sends no message at all and returns the empty plugin
handle. -/
theorem export_plugin_empty_kind (filterPlugin : PluginDesc → PluginDesc) (pDesc : PluginDesc)
    (hf : ∀ d, (filterPlugin d).pluginName = d.pluginName ∧
      (filterPlugin d).pluginID = d.pluginID)
    (hk : pDesc.pluginID = "") :
    export_plugin filterPlugin pDesc =
      { sent := [], plugin := AttrPlugin.empty, assertFailed := false } := by
  unfold export_plugin
  simp [(hf pDesc).2, hk]

/-- The statement of C8 at a description with attributes and an empty kind. -/
theorem export_plugin_empty_kind_witness :
    (∀ d : PluginDesc, (id d).pluginName = d.pluginName ∧ (id d).pluginID = d.pluginID) ∧
      (intDesc "Box" "" "objectID" 3).pluginID = "" ∧
      export_plugin id (intDesc "Box" "" "objectID" 3) =
        { sent := [], plugin := AttrPlugin.empty, assertFailed := false } :=
  ⟨fun _ => ⟨rfl, rfl⟩, rfl,
    export_plugin_empty_kind id (intDesc "Box" "" "objectID" 3) (fun _ => ⟨rfl, rfl⟩) rfl⟩

/-- C6 (end-to-end scenario): starting from an empty cache, after `updateCache` of `"Box"`
(kind `"Node"`, attributes `transform` = identity and `material` = `"Mtl1"`), `differences`
of `"Box"`/`"Node"` with `transform` = identity and `material` = `"Mtl2"` has name `"Box"`,
kind `"Node"` and exactly one attribute, `material` = `"Mtl2"`; and `export_plugin` applied to
that result emits exactly one attribute-update message, for `"Box"`.  This holds in both
retain-full-data modes and for all time stamps; the two functions that are not among the
embedded sources enter as assumptions: the hash function gives the two descriptions
different composite digests, and `filterPlugin` hands the sparse description on unchanged. -/
theorem end_to_end_scenario (H : HashFn) (filterPlugin : PluginDesc → PluginDesc)
    (storeData : Bool) (t1 t2 f : Int)
    (hH : (PluginManager.makeHash H (boxDesc "Mtl2" t2)).m_allHash ≠
      (PluginManager.makeHash H (boxDesc "Mtl1" t1)).m_allHash)
    (hf : filterPlugin (boxDiff "Mtl2") = boxDiff "Mtl2") :
    ((PluginManager.init storeData).updateCache H (boxDesc "Mtl1" t1)
        f).differences H (boxDesc "Mtl2" t2) = boxDiff "Mtl2" ∧
      attrUpdates (export_plugin filterPlugin (boxDiff "Mtl2")).sent =
        [VRayMessage.pluginAttr "Box" "material"
          (AttrValue.plugin { plugin := "Mtl2", output := "" })] := by
  constructor
  · exact PluginManager.differences_one_changed H _ "Box" "Node" "Node"
      [] [transformAttr t1] [] [transformAttr t2] (materialAttr "Mtl1" t1)
      (materialAttr "Mtl2" t2) f
      (by
        show List.Pairwise (fun a b => keyLt a b = true) ["material", "transform"]
        decide) rfl rfl rfl hH
  · simp only [export_plugin, hf]
    decide

/-- The statement of C6 with the reference `MurmurHash3_x86_32` and a `filterPlugin` that
hands every description on unchanged, at frames 1 and 2. -/
theorem end_to_end_scenario_witness :
    ((PluginManager.makeHash MurmurHash3_x86_32 (boxDesc "Mtl2" 2)).m_allHash ≠
        (PluginManager.makeHash MurmurHash3_x86_32 (boxDesc "Mtl1" 1)).m_allHash ∧
      id (boxDiff "Mtl2") = boxDiff "Mtl2") ∧
      ((PluginManager.init false).updateCache MurmurHash3_x86_32 (boxDesc "Mtl1" 1)
        1).differences MurmurHash3_x86_32 (boxDesc "Mtl2" 2) = boxDiff "Mtl2" ∧
      attrUpdates (export_plugin id (boxDiff "Mtl2")).sent =
        [VRayMessage.pluginAttr "Box" "material"
          (AttrValue.plugin { plugin := "Mtl2", output := "" })] :=
  ⟨⟨by decide, rfl⟩,
    end_to_end_scenario MurmurHash3_x86_32 id false 1 2 1 (by decide) rfl⟩

/-- C9 at the failing input: for the two attributes with the times 5 and 0, `export_plugin`
sends `setCurrentTime 5` before the first attribute and nothing before the second, so the
second attribute (time 0) is sent while the last `setCurrentTime` carries 5. -/
theorem export_plugin_times_5_0 :
    (export_plugin id (timedDesc 5 0)).sent =
      [ VRayMessage.createPlugin "Box" "Node",
        VRayMessage.setCurrentTime 5,
        VRayMessage.pluginAttr "Box" "objectID" (AttrValue.int 7),
        VRayMessage.pluginAttr "Box" "visible" (AttrValue.int 1) ] ∧
      timeUpdates (export_plugin id (timedDesc 5 0)).sent = [VRayMessage.setCurrentTime 5] := by
  decide

/-- C10 at the failing input: for the two attributes with the equal times 5 and 5,
`export_plugin` sends `setCurrentTime 5` twice, once before each attribute. -/
theorem export_plugin_times_5_5 :
    (export_plugin id (timedDesc 5 5)).sent =
      [ VRayMessage.createPlugin "Box" "Node",
        VRayMessage.setCurrentTime 5,
        VRayMessage.pluginAttr "Box" "objectID" (AttrValue.int 7),
        VRayMessage.setCurrentTime 5,
        VRayMessage.pluginAttr "Box" "visible" (AttrValue.int 1) ] ∧
      (timeUpdates (export_plugin id (timedDesc 5 5)).sent).length = 2 := by
  decide

/-! ## The image pipeline -/

theorem wordsOfBytes_length (n : Nat) (data : List Nat) (h : data.length = n * 4) :
    (wordsOfBytes data).length = n := by
  induction n generalizing data with
  | zero =>
    have : data = [] := List.length_eq_zero.mp (by omega)
    subst this
    rfl
  | succ n ih =>
    match data, h with
    | b0 :: b1 :: b2 :: b3 :: rest, h =>
      have hr : rest.length = n * 4 := by
        simp only [List.length_cons] at h
        omega
      simp [wordsOfBytes, ih rest hr]
    | [], h => simp at h
    | [_], h => simp at h; omega
    | [_, _], h => simp at h; omega
    | [_, _, _], h => simp at h; omega

theorem bytesOfWord_wordsOfBytes (n : Nat) (data : List Nat) (h : data.length = n * 4)
    (hb : ∀ b ∈ data, b < 256) : (wordsOfBytes data).flatMap bytesOfWord = data := by
  induction n generalizing data with
  | zero =>
    have : data = [] := List.length_eq_zero.mp (by omega)
    subst this
    rfl
  | succ n ih =>
    match data, h, hb with
    | b0 :: b1 :: b2 :: b3 :: rest, h, hb =>
      have hr : rest.length = n * 4 := by
        simp only [List.length_cons] at h
        omega
      have h0 : b0 < 256 := hb b0 (by simp)
      have h1 : b1 < 256 := hb b1 (by simp)
      have h2 : b2 < 256 := hb b2 (by simp)
      have h3 : b3 < 256 := hb b3 (by simp)
      have hrest : ∀ b ∈ rest, b < 256 := fun b hmem => hb b (by simp [hmem])
      have hw : bytesOfWord (b0 + b1 * 256 + b2 * 65536 + b3 * 16777216) = [b0, b1, b2, b3] := by
        unfold bytesOfWord
        have e0 : (b0 + b1 * 256 + b2 * 65536 + b3 * 16777216) % 256 = b0 := by omega
        have e1 : (b0 + b1 * 256 + b2 * 65536 + b3 * 16777216) / 256 % 256 = b1 := by omega
        have e2 : (b0 + b1 * 256 + b2 * 65536 + b3 * 16777216) / 65536 % 256 = b2 := by omega
        have e3 : (b0 + b1 * 256 + b2 * 65536 + b3 * 16777216) / 16777216 % 256 = b3 := by
          omega
        rw [e0, e1, e2, e3]
      simp only [wordsOfBytes, List.flatMap_cons, hw, ih rest hr hrest]
      rfl
    | [], h, _ => simp at h
    | [_], h, _ => simp at h; omega
    | [_, _], h, _ => simp at h; omega
    | [_, _, _], h, _ => simp at h; omega

/-- C11 (image round trip): for every raw (`RGBA_REAL`) image message of width `w` and
height `h` whose payload carries `w*h*4` 32-bit floats (`w*h*4*4` bytes), whatever the image
stored before, after `ZmqRenderImage::update` the image returned by `get_image` has the same
`w` and `h` and a pixel buffer equal to the payload bit for bit: it holds the `w*h*4` float
words of the payload, and its bytes are the payload bytes. -/
theorem get_image_update_raw (jpegToPixelData : JpegDecoder) (cur : RenderImage)
    (img : AttrImage) (hty : img.imageType = ImageType.RGBA_REAL)
    (hlen : img.data.length = img.width * img.height * 4 * 4)
    (hbytes : ∀ b ∈ img.data, b < 256) :
    get_image (ZmqRenderImage.update jpegToPixelData cur img) =
        { w := img.width, h := img.height, pixels := some (wordsOfBytes img.data) } ∧
      (wordsOfBytes img.data).length = img.width * img.height * 4 ∧
      (wordsOfBytes img.data).flatMap bytesOfWord = img.data := by
  have hl := wordsOfBytes_length (img.width * img.height * 4) img.data hlen
  refine ⟨?_, hl, bytesOfWord_wordsOfBytes _ img.data hlen hbytes⟩
  unfold ZmqRenderImage.update get_image copyFloats
  simp [hty, ← hl]

/-- The statement of C11 at a one pixel image received into an empty pipeline. -/
theorem get_image_update_raw_witness :
    ((rawImage 1 1 onePixelBytes).imageType = ImageType.RGBA_REAL ∧
      (rawImage 1 1 onePixelBytes).data.length =
        (rawImage 1 1 onePixelBytes).width * (rawImage 1 1 onePixelBytes).height * 4 * 4 ∧
      ∀ b ∈ (rawImage 1 1 onePixelBytes).data, b < 256) ∧
      get_image (ZmqRenderImage.update rejectingDecoder RenderImage.empty
        (rawImage 1 1 onePixelBytes)) = { w := 1, h := 1, pixels := some [1, 2, 3, 4] } :=
  ⟨⟨rfl, rfl, by decide⟩,
    (get_image_update_raw rejectingDecoder RenderImage.empty (rawImage 1 1 onePixelBytes) rfl
      rfl (by decide)).1⟩

/-- C12 at the failing input: when `update` processes a `JPG` message whose payload fails to
decode, the stored width and height become those of the message and the stored pixel buffer
becomes the null pointer, whatever was stored before; `get_image` afterwards returns the
empty image. -/
theorem update_jpg_decode_failure (jpegToPixelData : JpegDecoder) (cur : RenderImage)
    (img : AttrImage) (hty : img.imageType = ImageType.JPG)
    (hfail : jpegToPixelData img.data img.size = none) :
    ZmqRenderImage.update jpegToPixelData cur img =
        { w := img.width, h := img.height, pixels := none } ∧
      get_image (ZmqRenderImage.update jpegToPixelData cur img) = RenderImage.empty := by
  unfold ZmqRenderImage.update get_image
  simp [hty, hfail]

/-- The statement of C12 at a pipeline that holds a one pixel image and receives a `JPG`
message of 2 by 2 pixels with an undecodable payload: before the message `get_image` returns
the one pixel image, afterwards the empty image. -/
theorem update_jpg_decode_failure_witness :
    ((jpgImage 2 2 [255, 216, 0]).imageType = ImageType.JPG ∧
      rejectingDecoder (jpgImage 2 2 [255, 216, 0]).data (jpgImage 2 2 [255, 216, 0]).size =
        none) ∧
      get_image { w := 1, h := 1, pixels := some [1, 2, 3, 4] } =
        { w := 1, h := 1, pixels := some [1, 2, 3, 4] } ∧
      ZmqRenderImage.update rejectingDecoder { w := 1, h := 1, pixels := some [1, 2, 3, 4] }
        (jpgImage 2 2 [255, 216, 0]) = { w := 2, h := 2, pixels := none } ∧
      get_image (ZmqRenderImage.update rejectingDecoder
        { w := 1, h := 1, pixels := some [1, 2, 3, 4] } (jpgImage 2 2 [255, 216, 0])) =
        RenderImage.empty :=
  ⟨⟨rfl, rfl⟩, by decide,
    (update_jpg_decode_failure rejectingDecoder { w := 1, h := 1, pixels := some [1, 2, 3, 4] }
      (jpgImage 2 2 [255, 216, 0]) rfl rfl).1,
    (update_jpg_decode_failure rejectingDecoder { w := 1, h := 1, pixels := some [1, 2, 3, 4] }
      (jpgImage 2 2 [255, 216, 0]) rfl rfl).2⟩

/-! ## The transport: kinds without a `case` -/

/-- C19 at the failing input: for the description `"Box"` of kind `"Node"` with one
attribute of kind `Matrix`, `export_plugin` reaches the `default` branch of its type switch
(`assert(false)`) and sends no attribute update, although `getAttrHash` has a `case` for
`ValueTypeMatrix`. -/
theorem export_plugin_matrix_default :
    (export_plugin id
        (singleDesc "Box" "Node" "uvw_transform" (.matrix identityTransform.m))).assertFailed =
        true ∧
      (export_plugin id
        (singleDesc "Box" "Node" "uvw_transform" (.matrix identityTransform.m))).sent =
        [VRayMessage.createPlugin "Box" "Node", VRayMessage.setCurrentTime 0] ∧
      getAttrHash MurmurHash3_x86_32 (.matrix identityTransform.m) 42 =
        MurmurHash3_x86_32 identityTransform.m.bytes 42 := by
  decide

/-! ## The hasher: determinism and order -/

/-- The digest of an instance record never reads the node name: it is the same for every
`node`, the object representation being equal. -/
theorem instancerItemHash_node (H : HashFn) (valHash : MHash) (rd : AttrInstancerItem)
    (node : AttrPlugin) :
    instancerItemHash H valHash { rd with node := node } = instancerItemHash H valHash rd :=
  rfl

set_option maxRecDepth 100000 in
/-- C18 at the failing input: two `Instancer` values with the same frame number and, for
their one instance, the same transform, velocity, index and referenced node name `"Cube"`,
whose `AttrPlugin` object lies at two different addresses, get different digests; and two
values that differ in the referenced node name but not in the object representation get the
same digest. -/
theorem instancer_digest_depends_on_address :
    getAttrHash MurmurHash3_x86_32 (sampleInstancer "Cube" (sampleNodeRepr 0x7f001000)) 42 ≠
        getAttrHash MurmurHash3_x86_32 (sampleInstancer "Cube" (sampleNodeRepr 0x7f002000)) 42 ∧
      getAttrHash MurmurHash3_x86_32 (sampleInstancer "Cube" (sampleNodeRepr 0x7f001000)) 42 =
        getAttrHash MurmurHash3_x86_32 (sampleInstancer "Cone" (sampleNodeRepr 0x7f001000))
          42 := by
  decide

theorem bytesOfWord_length (n : Nat) : (bytesOfWord n).length = 4 := rfl

theorem bytesOfWord_injective (x y : Nat) (hx : isWord x) (hy : isWord y)
    (h : bytesOfWord x = bytesOfWord y) : x = y := by
  unfold isWord at hx hy
  unfold bytesOfWord at h
  simp only [List.cons.injEq, and_true] at h
  omega

theorem wordOfInt_isWord (i : Int) : isWord (wordOfInt i) := by
  unfold isWord wordOfInt
  omega

theorem wordOfInt_injective (a b : Int) (ha : isInt32 a) (hb : isInt32 b)
    (h : wordOfInt a = wordOfInt b) : a = b := by
  unfold isInt32 at ha hb
  unfold wordOfInt at h
  omega

theorem vectorBytes_injective (u v : AttrVector) (hu : isWord u.x ∧ isWord u.y ∧ isWord u.z)
    (hv : isWord v.x ∧ isWord v.y ∧ isWord v.z) (h : u.bytes = v.bytes) : u = v := by
  unfold AttrVector.bytes at h
  have h1 := List.append_inj h (by simp [bytesOfWord_length])
  have h2 := List.append_inj h1.1 (by simp [bytesOfWord_length])
  cases u
  cases v
  simp only at hu hv h1 h2
  simp only [AttrVector.mk.injEq]
  exact ⟨bytesOfWord_injective _ _ hu.1 hv.1 h2.1, bytesOfWord_injective _ _ hu.2.1 hv.2.1 h2.2,
    bytesOfWord_injective _ _ hu.2.2 hv.2.2 h1.2⟩

theorem colorBytes_injective (p q : AttrColor) (hp : isWord p.r ∧ isWord p.g ∧ isWord p.b)
    (hq : isWord q.r ∧ isWord q.g ∧ isWord q.b) (h : p.bytes = q.bytes) : p = q := by
  unfold AttrColor.bytes at h
  have h1 := List.append_inj h (by simp [bytesOfWord_length])
  have h2 := List.append_inj h1.1 (by simp [bytesOfWord_length])
  cases p
  cases q
  simp only at hp hq h1 h2
  simp only [AttrColor.mk.injEq]
  exact ⟨bytesOfWord_injective _ _ hp.1 hq.1 h2.1, bytesOfWord_injective _ _ hp.2.1 hq.2.1 h2.2,
    bytesOfWord_injective _ _ hp.2.2 hq.2.2 h1.2⟩

/-- Two element buffers of equal element size: swapping two different elements changes the
buffer. -/
theorem swap_key_ne {α : Type} (f : α → List Nat) (n : Nat) (hlen : ∀ a, (f a).length = n)
    (a b : α) (hne : f a ≠ f b) : [a, b].flatMap f ≠ [b, a].flatMap f := by
  intro h
  simp only [List.flatMap_cons, List.flatMap_nil, List.append_nil] at h
  exact hne (List.append_inj h (by rw [hlen, hlen])).1

/-- C16, as amended: the digest of a list is the hash of its elements taken in list order.
For a two-element `ListInt`, `ListFloat`, `ListVector` or `ListColor` with `a ≠ b` (values in
the 32-bit range) the digests of `[a, b]` and of `[b, a]` are the hashes, with seed `42`, of
two different byte strings of equal length; for `ListString` and `ListPlugin` the digest is
the chain, in list order, of the hashes of the element strings, each seeded with the result
of the one before.  (Whether the two digests differ is then up to the hash function.) -/
theorem list_digest_order (H : HashFn) (seed : MHash) :
    (∀ a b : Int, isInt32 a → isInt32 b → a ≠ b →
      getAttrHash H (.listInt [a, b]) seed =
          H (bytesOfWord (wordOfInt a) ++ bytesOfWord (wordOfInt b)) 42 ∧
        getAttrHash H (.listInt [b, a]) seed =
          H (bytesOfWord (wordOfInt b) ++ bytesOfWord (wordOfInt a)) 42 ∧
        bytesOfWord (wordOfInt a) ++ bytesOfWord (wordOfInt b) ≠
          bytesOfWord (wordOfInt b) ++ bytesOfWord (wordOfInt a)) ∧
    (∀ a b : Nat, isWord a → isWord b → a ≠ b →
      getAttrHash H (.listFloat [a, b]) seed = H (bytesOfWord a ++ bytesOfWord b) 42 ∧
        getAttrHash H (.listFloat [b, a]) seed = H (bytesOfWord b ++ bytesOfWord a) 42 ∧
        bytesOfWord a ++ bytesOfWord b ≠ bytesOfWord b ++ bytesOfWord a) ∧
    (∀ a b : AttrVector, (isWord a.x ∧ isWord a.y ∧ isWord a.z) →
      (isWord b.x ∧ isWord b.y ∧ isWord b.z) → a ≠ b →
      getAttrHash H (.listVector [a, b]) seed = H (a.bytes ++ b.bytes) 42 ∧
        getAttrHash H (.listVector [b, a]) seed = H (b.bytes ++ a.bytes) 42 ∧
        a.bytes ++ b.bytes ≠ b.bytes ++ a.bytes) ∧
    (∀ a b : AttrColor, (isWord a.r ∧ isWord a.g ∧ isWord a.b) →
      (isWord b.r ∧ isWord b.g ∧ isWord b.b) → a ≠ b →
      getAttrHash H (.listColor [a, b]) seed = H (a.bytes ++ b.bytes) 42 ∧
        getAttrHash H (.listColor [b, a]) seed = H (b.bytes ++ a.bytes) 42 ∧
        a.bytes ++ b.bytes ≠ b.bytes ++ a.bytes) ∧
    (∀ a b : String,
      getAttrHash H (.listString [a, b]) seed =
        H (stringBytes b) (H (stringBytes a) seed)) ∧
    (∀ a b : AttrPlugin,
      getAttrHash H (.listPlugin [a, b]) seed =
        listPluginItemHash H (listPluginItemHash H seed a) b) := by
  refine ⟨?_, ?_, ?_, ?_, ?_, ?_⟩
  · intro a b ha hb hab
    refine ⟨by simp [getAttrHash, getValueHash], by simp [getAttrHash, getValueHash], ?_⟩
    intro h
    have h1 := (List.append_inj h (by simp [bytesOfWord_length])).1
    exact hab (wordOfInt_injective a b ha hb
      (bytesOfWord_injective _ _ (wordOfInt_isWord a) (wordOfInt_isWord b) h1))
  · intro a b ha hb hab
    refine ⟨by simp [getAttrHash, getValueHash], by simp [getAttrHash, getValueHash], ?_⟩
    intro h
    exact hab (bytesOfWord_injective a b ha hb
      (List.append_inj h (by simp [bytesOfWord_length])).1)
  · intro a b ha hb hab
    refine ⟨by simp [getAttrHash, getValueHash], by simp [getAttrHash, getValueHash], ?_⟩
    intro h
    exact hab (vectorBytes_injective a b ha hb
      (List.append_inj h (by simp [AttrVector.bytes, bytesOfWord_length])).1)
  · intro a b ha hb hab
    refine ⟨by simp [getAttrHash, getValueHash], by simp [getAttrHash, getValueHash], ?_⟩
    intro h
    exact hab (colorBytes_injective a b ha hb
      (List.append_inj h (by simp [AttrColor.bytes, bytesOfWord_length])).1)
  · intro a b
    simp [getAttrHash, getValueHash]
  · intro a b
    simp [getAttrHash]

/-- The statement of C16 (amended) at the integers `1` and `2`. -/
theorem list_digest_order_witness :
    (isInt32 1 ∧ isInt32 2 ∧ (1 : Int) ≠ 2) ∧
      bytesOfWord (wordOfInt 1) ++ bytesOfWord (wordOfInt 2) ≠
        bytesOfWord (wordOfInt 2) ++ bytesOfWord (wordOfInt 1) :=
  ⟨⟨by unfold isInt32; omega, by unfold isInt32; omega, by decide⟩,
    ((list_digest_order MurmurHash3_x86_32 42).1 1 2 (by unfold isInt32; omega)
      (by unfold isInt32; omega) (by decide)).2.2⟩

/-- C16 fails as stated.  With the reference hash function the `ListInt` values
`[83607, 94884]` and `[94884, 83607]` have the same digest; and for every hash function and
seed the `ListPlugin` values `[Tex, Tex::Tex]` and `[Tex::Tex, Tex]` (a reference without
output socket and one with the socket `"Tex"`) have the same digest, both being the chain of
three hashes of `"Tex"`. -/
theorem list_digest_order_collision :
    ((83607 : Int) ≠ 94884 ∧
      getAttrHash MurmurHash3_x86_32 (.listInt [83607, 94884]) 42 =
        getAttrHash MurmurHash3_x86_32 (.listInt [94884, 83607]) 42) ∧
    (texPlain ≠ texSocket ∧
      ∀ (H : HashFn) (seed : MHash),
        getAttrHash H (.listPlugin [texPlain, texSocket]) seed =
          getAttrHash H (.listPlugin [texSocket, texPlain]) seed) := by
  refine ⟨⟨by decide, by decide⟩, by decide, ?_⟩
  intro H seed
  simp [getAttrHash, listPluginItemHash, texPlain, texSocket]

/-! ## The frame driver: waiting, cancellation, teardown -/

/-- Iterations that see neither the requested frame nor an interruption nor an abort are
passed over. -/
theorem waitLoop_append (m_settings : ExporterSettings) (cur : Int) (pre polls : List Poll)
    (hpre : ∀ q ∈ pre, q.get_last_rendered_frame ≠ cur ∧
      is_interrupted m_settings q = false ∧ q.is_aborted = false) :
    waitLoop m_settings cur (pre ++ polls) = waitLoop m_settings cur polls := by
  induction pre with
  | nil => rfl
  | cons q pre ih =>
    have hq := hpre q (List.mem_cons_self _ _)
    have ih2 := ih (fun q2 h => hpre q2 (List.mem_cons_of_mem _ h))
    simp [waitLoop, hq.1, hq.2.1, hq.2.2, ih2]

/-- A wait that returns `true` has seen the requested frame at its last loop check. -/
theorem waitLoop_returned_true (m_settings : ExporterSettings) (cur : Int) (polls rest : List Poll)
    (h : waitLoop m_settings cur polls = .returned true rest) :
    ∃ pre p, polls = pre ++ p :: rest ∧ p.get_last_rendered_frame = cur := by
  induction polls with
  | nil => simp [waitLoop] at h
  | cons q polls ih =>
    unfold waitLoop at h
    by_cases h1 : q.get_last_rendered_frame = cur
    · simp only [h1, ne_eq, not_true_eq_false, if_false, WaitResult.returned.injEq,
        true_and] at h
      exact ⟨[], q, by simp [h], h1⟩
    · simp only [h1, ne_eq, not_false_eq_true, if_true] at h
      by_cases h2 : is_interrupted m_settings q = true
      · simp [h2] at h
      · by_cases h3 : q.is_aborted = true
        · simp [h2, h3] at h
        · simp only [h2, h3, Bool.false_eq_true, if_false] at h
          obtain ⟨pre, p, hp, hcur⟩ := ih h
          exact ⟨q :: pre, p, by simp [hp], hcur⟩

/-- C15 (the wait stops on interruption or abort): after iterations `pre` that see neither
the requested render frame nor an interruption nor an abort, an iteration `p` that does not
see the requested frame and observes `is_interrupted()` or `is_aborted()` makes
`wait_for_frame_render` return `false`, and one that sees the requested frame makes it
return `true`; in both cases the observations `rest` after `p` are left unread.  And whenever
the function returns `true`, the last observation it read saw the requested frame. -/
theorem wait_for_frame_render_stops (m_settings : ExporterSettings) (cur : Int)
    (pre : List Poll) (p : Poll) (rest : List Poll)
    (hpre : ∀ q ∈ pre, q.get_last_rendered_frame ≠ cur ∧
      is_interrupted m_settings q = false ∧ q.is_aborted = false) :
    (p.get_last_rendered_frame ≠ cur →
        (is_interrupted m_settings p = true ∨ p.is_aborted = true) →
        (wait_for_frame_render m_settings cur (pre ++ p :: rest)).2 = .returned false rest) ∧
      (p.get_last_rendered_frame = cur →
        (wait_for_frame_render m_settings cur (pre ++ p :: rest)).2 = .returned true rest) ∧
      (∀ polls rest2,
        (wait_for_frame_render m_settings cur polls).2 = .returned true rest2 →
        ∃ pre2 p2, polls = pre2 ++ p2 :: rest2 ∧ p2.get_last_rendered_frame = cur) := by
  refine ⟨?_, ?_, ?_⟩
  · intro h1 h2
    show waitLoop m_settings cur (pre ++ p :: rest) = _
    rw [waitLoop_append m_settings cur pre _ hpre]
    unfold waitLoop
    rcases h2 with h2 | h2
    · simp [h1, h2]
    · simp [h1, h2]
  · intro h1
    show waitLoop m_settings cur (pre ++ p :: rest) = _
    rw [waitLoop_append m_settings cur pre _ hpre]
    unfold waitLoop
    simp [h1]
  · intro polls rest2 h
    exact waitLoop_returned_true m_settings cur polls rest2 h

/-- The statement of C15 at the wait for frame 2 of the cancellation scenario: the first
iteration sees frame 1 and no flag, the second sees the interruption. -/
theorem wait_for_frame_render_stops_witness :
    (∀ q ∈ [pollAt 1 false], q.get_last_rendered_frame ≠ 2 ∧
        is_interrupted zmqAnimation q = false ∧ q.is_aborted = false) ∧
      (wait_for_frame_render zmqAnimation 2
        ([pollAt 1 false] ++ pollAt 1 true :: [pollAt 3 false])).2 =
          .returned false [pollAt 3 false] :=
  ⟨by decide,
    (wait_for_frame_render_stops zmqAnimation 2 [pollAt 1 false] (pollAt 1 true)
      [pollAt 3 false] (by decide)).1 (by decide) (Or.inl (by decide))⟩

/-- Every event of a call of `forEachExportFrame` belongs to the export of a frame. -/
theorem forEachExportFrame_isExport (m_settings : ExporterSettings) (frames : List ExportFrame)
    (isFirstExport : Bool) :
    ∀ e ∈ (forEachExportFrame m_settings isFirstExport frames).1, e.isExport = true := by
  induction frames generalizing isFirstExport with
  | nil => simp [forEachExportFrame]
  | cons f frames ih =>
    intro e he
    simp only [forEachExportFrame, List.mem_append] at he
    rcases he with he | he
    · simp only [exportFrameEvents, List.mem_cons, List.mem_singleton, List.not_mem_nil,
        or_false] at he
      rcases he with he | he
      · rw [he]
        split <;> rfl
      · rw [he]
        split <;> rfl
    · exact ih false e he

/-- The failed wait in a trace. -/
theorem isExport_ne_stop (e : Event) (h : e.isExport = true) : e ≠ Event.wait_returned false := by
  intro h2
  rw [h2] at h
  simp [Event.isExport] at h

/-- No synchronization pass after a failed wait: the property of a trace. -/
theorem quiet_append_left (A B : List Event) (hA : ∀ e ∈ A, e ≠ Event.wait_returned false)
    (hB : ∀ pre post, B = pre ++ Event.wait_returned false :: post →
      ∀ e ∈ post, e.isSync = false) :
    ∀ pre post, A ++ B = pre ++ Event.wait_returned false :: post →
      ∀ e ∈ post, e.isSync = false := by
  induction A with
  | nil => simpa using hB
  | cons a A ih =>
    intro pre post h
    cases pre with
    | nil =>
      simp only [List.cons_append, List.nil_append, List.cons.injEq] at h
      exact absurd h.1 (hA a (List.mem_cons_self _ _))
    | cons x pre =>
      simp only [List.cons_append, List.cons.injEq] at h
      exact ih (fun e he => hA e (List.mem_cons_of_mem _ he)) pre post h.2

theorem quiet_append_right (B : List Event) (hB : ∀ e ∈ B, e.isClosing = true) :
    ∀ (A : List Event), (∀ pre post, A = pre ++ Event.wait_returned false :: post →
      ∀ e ∈ post, e.isSync = false) →
    ∀ pre post, A ++ B = pre ++ Event.wait_returned false :: post →
      ∀ e ∈ post, e.isSync = false := by
  have hBsync : ∀ e ∈ B, e.isSync = false := by
    intro e he
    have := hB e he
    cases e <;> simp [Event.isClosing] at this <;> rfl
  have hBstop : Event.wait_returned false ∉ B := by
    intro he
    have := hB _ he
    simp [Event.isClosing] at this
  intro A hA pre
  induction pre generalizing A with
  | nil =>
    intro post h
    cases A with
    | nil =>
      simp only [List.nil_append] at h
      exact absurd (h ▸ List.mem_cons_self _ _) hBstop
    | cons a A =>
      simp only [List.cons_append, List.nil_append, List.cons.injEq] at h
      intro e he
      rw [← h.2] at he
      rcases List.mem_append.mp he with he | he
      · exact hA [] A (by simp [h.1]) e he
      · exact hBsync e he
  | cons x pre ih =>
    intro post h
    cases A with
    | nil =>
      simp only [List.nil_append] at h
      exact absurd (h ▸ List.mem_cons_of_mem _ (List.mem_append_right _ (List.mem_cons_self _ _)))
        hBstop
    | cons a A =>
      simp only [List.cons_append, List.cons.injEq] at h
      refine ih A ?_ post h.2
      intro pre2 post2 h2
      exact hA (a :: pre2) post2 (by simp [h2])

/-- The events of one iteration of the render-frame loop before the wait. -/
theorem frameSent_isExport (m_settings : ExporterSettings) (commitAutoOn isFirstExport : Bool)
    (frame : RenderFrame) (e : Event)
    (he : (e ∈ (forEachExportFrame m_settings isFirstExport frame.exportFrames).1 ∨
        e = Event.set_current_frame frame.getCurrentRenderFrame) ∨
      e ∈ (if commitAutoOn then [] else [Event.commit_changes])) : e.isExport = true := by
  rcases he with (he | he) | he
  · exact forEachExportFrame_isExport _ _ _ e he
  · rw [he]
    rfl
  · cases commitAutoOn
    · simp only [Bool.false_eq_true, if_false, List.mem_singleton] at he
      rw [he]
      rfl
    · simp at he

/-- The events of the render-frame loop: exports of frames and returns of waits. -/
theorem frameLoop_events (m_settings : ExporterSettings) (commitAutoOn : Bool)
    (frames : List RenderFrame) (isFirstExport : Bool) (polls : List Poll) :
    ∀ e ∈ (frameLoop m_settings commitAutoOn isFirstExport frames polls).1,
      e.isExport = true ∨ ∃ b, e = Event.wait_returned b := by
  induction frames generalizing isFirstExport polls with
  | nil => simp [frameLoop]
  | cons frame frames ih =>
    have hsent := frameSent_isExport m_settings commitAutoOn isFirstExport frame
    intro e he
    unfold frameLoop at he
    by_cases hfile : m_settings.exporter_type = .ExpoterTypeFile
    · simp only [hfile, if_true, List.mem_append, List.mem_singleton] at he
      rcases he with he | he
      · exact Or.inl (hsent e he)
      · exact ih _ _ e he
    · simp only [hfile, if_false, wait_for_frame_render] at he
      cases hw : waitLoop m_settings frame.getCurrentRenderFrame polls with
      | waiting =>
        simp only [hw, List.mem_append, List.mem_singleton] at he
        rcases he with he | he
        · exact Or.inl (hsent e he)
        · rw [he]
          exact Or.inl rfl
      | returned b rest =>
        cases b with
        | false =>
          simp only [hw, List.mem_append, List.mem_singleton] at he
          rcases he with (he | he) | he
          · exact Or.inl (hsent e he)
          · rw [he]
            exact Or.inl rfl
          · exact Or.inr ⟨false, he⟩
        | true =>
          simp only [hw, List.mem_append, List.mem_singleton] at he
          rcases he with ((he | he) | he) | he
          · exact Or.inl (hsent e he)
          · rw [he]
            exact Or.inl rfl
          · exact Or.inr ⟨true, he⟩
          · exact ih _ _ e he

/-- In the trace of the render-frame loop no synchronization pass follows a failed wait. -/
theorem frameLoop_quiet (m_settings : ExporterSettings) (commitAutoOn : Bool)
    (frames : List RenderFrame) (isFirstExport : Bool) (polls : List Poll) :
    ∀ pre post, (frameLoop m_settings commitAutoOn isFirstExport frames polls).1 =
        pre ++ Event.wait_returned false :: post →
      ∀ e ∈ post, e.isSync = false := by
  induction frames generalizing isFirstExport polls with
  | nil =>
    intro pre post h
    simp [frameLoop] at h
  | cons frame frames ih =>
    have hsent := frameSent_isExport m_settings commitAutoOn isFirstExport frame
    unfold frameLoop
    by_cases hfile : m_settings.exporter_type = .ExpoterTypeFile
    · simp only [hfile, if_true]
      refine quiet_append_left _ _ ?_ (ih _ _)
      intro e he
      simp only [List.mem_append, List.mem_singleton] at he
      exact isExport_ne_stop e (hsent e he)
    · simp only [hfile, if_false, wait_for_frame_render]
      have hstart : ∀ e, (((e ∈ (forEachExportFrame m_settings isFirstExport
          frame.exportFrames).1 ∨ e = Event.set_current_frame frame.getCurrentRenderFrame) ∨
          e ∈ (if commitAutoOn then [] else [Event.commit_changes])) ∨ e = Event.start) →
          e ≠ Event.wait_returned false := by
        intro e he
        rcases he with he | he
        · exact isExport_ne_stop e (hsent e he)
        · rw [he]
          simp
      cases hw : waitLoop m_settings frame.getCurrentRenderFrame polls with
      | waiting =>
        intro pre post h
        have h2 := congrArg (fun l => Event.wait_returned false ∈ l) h
        simp only [List.mem_append, List.mem_singleton, List.mem_cons, true_or, or_true,
          eq_iff_iff, iff_true, List.not_mem_nil, or_false] at h2
        exact absurd rfl (hstart _ h2)
      | returned b rest =>
        cases b with
        | false =>
          refine quiet_append_left _ _ ?_ ?_
          · intro e he
            simp only [List.mem_append, List.mem_singleton] at he
            exact hstart e he
          · intro pre post h
            cases pre with
            | nil =>
              simp only [List.nil_append, List.cons.injEq, true_and] at h
              rw [← h]
              simp
            | cons x pre =>
              simp at h
        | true =>
          refine quiet_append_left _ _ ?_ (ih _ _)
          intro e he
          simp only [List.mem_append, List.mem_singleton] at he
          rcases he with he | he
          · exact hstart e he
          · rw [he]
            simp

/-- The trace of a run: the opening, the render-frame loop, the closing. -/
theorem export_scene_trace (m_settings : ExporterSettings) (commitAutoOn : Bool)
    (frames : List RenderFrame) (polls : List Poll) :
    ∃ opening closing,
      (export_scene m_settings commitAutoOn frames polls).trace =
        opening ++ (frameLoop m_settings commitAutoOn true frames polls).1 ++ closing ∧
      (∀ e ∈ opening, e = Event.render_start ∨ e = Event.thread_start) ∧
      (∀ e ∈ closing, e.isClosing = true) := by
  have hopen : ∀ (X Y : List Event), (∀ e ∈ X, e = Event.render_start) →
      (∀ e ∈ Y, e = Event.thread_start) →
      ∀ e ∈ X ++ Y, e = Event.render_start ∨ e = Event.thread_start := by
    intro X Y hX hY e he
    rcases List.mem_append.mp he with he | he
    · exact Or.inl (hX e he)
    · exact Or.inr (hY e he)
  have hthread : ∀ (b : Bool), ∀ e ∈ (if b then [Event.thread_start] else []),
      e = Event.thread_start := by
    intro b e he
    cases b <;> simp at he
    exact he
  have hclose : ∀ (p : Prop) [Decidable p], ∀ e ∈ [Event.frame_reset] ++
      (if p then [Event.export_vrscene] else []), e.isClosing = true := by
    intro p _ e he
    by_cases hp : p
    · simp only [hp, if_true, List.mem_append, List.mem_singleton] at he
      rcases he with he | he <;> rw [he] <;> rfl
    · simp only [hp, if_false, List.append_nil, List.mem_singleton] at he
      rw [he]
      rfl
  unfold export_scene
  simp only []
  have hstartev : ∀ (b : Bool), ∀ e ∈ (if b then [] else [Event.render_start]),
      e = Event.render_start := by
    intro b e he
    cases b <;> simp at he
    exact he
  have hclosing2 : ∀ e ∈ [Event.frame_reset] ++
      (if m_settings.work_mode = .WorkModeExportOnly ∨
        m_settings.work_mode = .WorkModeRenderAndExport then [Event.export_vrscene] else []) ++
      [Event.join] ++ render_end m_settings ++ [Event.free], e.isClosing = true := by
    intro e he
    simp only [List.mem_append, List.mem_singleton] at he
    rcases he with (((he | he) | he) | he) | he
    · rw [he]
      rfl
    · exact hclose _ e (List.mem_append_right _ he)
    · rw [he]
      rfl
    · unfold render_end at he
      split at he
      · simp only [List.mem_cons, List.mem_singleton, List.not_mem_nil, or_false] at he
        rcases he with he | he <;> rw [he] <;> rfl
      · simp at he
    · rw [he]
      rfl
  by_cases hl : (frameLoop m_settings commitAutoOn true frames polls).2 = false
  · simp only [hl, if_true]
    exact ⟨_, [], (List.append_nil _).symm, hopen _ _ (hstartev _) (hthread _), by simp⟩
  · simp only [hl, if_false]
    by_cases hf : decide (m_settings.exporter_type = .ExpoterTypeFile) = true
    · simp only [hf, if_true]
      refine ⟨_, _, rfl, hopen _ _ (hstartev true) (hthread _), ?_⟩
      intro e he
      rcases List.mem_append.mp he with he | he
      · exact hclose _ e he
      · rw [List.mem_singleton.mp he]
        rfl
    · simp only [hf, if_false]
      by_cases ht : (!false && decide (m_settings.work_mode ≠ .WorkModeExportOnly)) = true
      · simp only [ht, if_true]
        exact ⟨_, _, rfl, hopen _ _ (hstartev false) (hthread true), hclosing2⟩
      · simp only [ht, if_false]
        refine ⟨_, _, rfl, hopen _ _ (hstartev false) (hthread false), ?_⟩
        intro e he
        rcases List.mem_append.mp he with he | he
        · exact hclose _ e he
        · rw [List.mem_singleton.mp he]
          rfl

/-- C13 (cancellation skips the remaining frames): in the trace of every run of
`export_scene`, whatever the settings, the frame sequence and the observations of the waits,
no synchronization pass (`sync` or `sync_view`) follows a return of `wait_for_frame_render`
with the result `false`. -/
theorem export_scene_cancellation (m_settings : ExporterSettings) (commitAutoOn : Bool)
    (frames : List RenderFrame) (polls : List Poll) (pre post : List Event)
    (h : (export_scene m_settings commitAutoOn frames polls).trace =
      pre ++ Event.wait_returned false :: post) :
    ∀ e ∈ post, e.isSync = false := by
  obtain ⟨opening, closing, htrace, ho, hc⟩ :=
    export_scene_trace m_settings commitAutoOn frames polls
  rw [htrace, List.append_assoc] at h
  refine quiet_append_left opening _ ?_ ?_ pre post h
  · intro e he
    rcases ho e he with h1 | h1 <;> rw [h1] <;> simp
  · exact quiet_append_right closing hc _
      (frameLoop_quiet m_settings commitAutoOn frames true polls)

/-- The statement of C13 at the cancellation scenario: three frames, the interruption is
raised during the wait for frame 2.  The passes of frames 1 and 2 run, the wait for frame 2
returns `false`, and what follows is the teardown; no pass of frame 3 runs. -/
theorem export_scene_cancellation_witness :
    (export_scene zmqAnimation false [plainFrame 1, plainFrame 2, plainFrame 3]
        cancelPolls).trace =
      [Event.render_start, Event.thread_start,
        Event.set_current_frame 1, Event.sync 1, Event.set_current_frame 1,
        Event.commit_changes, Event.start, Event.wait_returned true,
        Event.set_current_frame 2, Event.sync 2, Event.set_current_frame 2,
        Event.commit_changes, Event.start] ++
      Event.wait_returned false ::
        [Event.frame_reset, Event.join, Event.stop, Event.free, Event.free] ∧
    ∀ e ∈ [Event.frame_reset, Event.join, Event.stop, Event.free, Event.free],
      e.isSync = false :=
  ⟨by decide,
    export_scene_cancellation zmqAnimation false [plainFrame 1, plainFrame 2, plainFrame 3]
      cancelPolls
      [Event.render_start, Event.thread_start,
        Event.set_current_frame 1, Event.sync 1, Event.set_current_frame 1,
        Event.commit_changes, Event.start, Event.wait_returned true,
        Event.set_current_frame 2, Event.sync 2, Event.set_current_frame 2,
        Event.commit_changes, Event.start]
      [Event.frame_reset, Event.join, Event.stop, Event.free, Event.free] (by decide)⟩

/-- No teardown call in the render-frame loop. -/
theorem frameLoop_count (m_settings : ExporterSettings) (commitAutoOn : Bool)
    (frames : List RenderFrame) (isFirstExport : Bool) (polls : List Poll) (e : Event)
    (he : e.isClosing = true) :
    (frameLoop m_settings commitAutoOn isFirstExport frames polls).1.count e = 0 := by
  rw [List.count_eq_zero]
  intro hmem
  rcases frameLoop_events m_settings commitAutoOn frames isFirstExport polls e hmem with
    h | ⟨b, h⟩
  · cases e <;> simp [Event.isClosing, Event.isExport] at he h
  · rw [h] at he
    simp [Event.isClosing] at he

/-- C14 at the code: in every run of `export_scene` that is not a file export and that
returns, the frame sequence is reset once and the transport receives one `stop`, but two
`free`: one from `render_end` and one from `export_scene` itself. -/
theorem export_scene_teardown (m_settings : ExporterSettings) (commitAutoOn : Bool)
    (frames : List RenderFrame) (polls : List Poll)
    (hfile : m_settings.exporter_type ≠ .ExpoterTypeFile)
    (hret : (export_scene m_settings commitAutoOn frames polls).outcome = .returned) :
    (export_scene m_settings commitAutoOn frames polls).trace.count Event.frame_reset = 1 ∧
      (export_scene m_settings commitAutoOn frames polls).trace.count Event.stop = 1 ∧
      (export_scene m_settings commitAutoOn frames polls).trace.count Event.free = 2 := by
  have h1 := frameLoop_count m_settings commitAutoOn frames true polls Event.frame_reset rfl
  have h2 := frameLoop_count m_settings commitAutoOn frames true polls Event.stop rfl
  have h3 := frameLoop_count m_settings commitAutoOn frames true polls Event.free rfl
  unfold export_scene at hret ⊢
  simp only [hfile, decide_False, Bool.not_false, Bool.true_and, Bool.false_eq_true, if_false,
    if_true] at hret ⊢
  by_cases hl : (frameLoop m_settings commitAutoOn true frames polls).2 = false
  · simp [hl] at hret
  · simp only [hl, if_false] at hret ⊢
    by_cases hm : m_settings.work_mode = .WorkModeExportOnly
    · simp [hm] at hret
    · by_cases hm2 : m_settings.work_mode = .WorkModeRenderAndExport
      · simp [hm, hm2, render_end, hfile, List.count_append, List.count_cons, h1, h2, h3]
      · simp [hm, hm2, render_end, hfile, List.count_append, List.count_cons, h1, h2, h3]

/-- The statement of C14 (at the code) at the cancellation scenario. -/
theorem export_scene_teardown_witness :
    (zmqAnimation.exporter_type ≠ .ExpoterTypeFile ∧
      (export_scene zmqAnimation false [plainFrame 1, plainFrame 2, plainFrame 3]
        cancelPolls).outcome = .returned) ∧
    (export_scene zmqAnimation false [plainFrame 1, plainFrame 2, plainFrame 3]
        cancelPolls).trace.count Event.free = 2 :=
  ⟨⟨by decide, by decide⟩,
    (export_scene_teardown zmqAnimation false [plainFrame 1, plainFrame 2, plainFrame 3]
      cancelPolls (by decide) (by decide)).2.2⟩

/-- A run that is not a file export in the work mode that only exports never starts the
render thread: it ends in `renderThread.join()`, and the transport receives neither `stop`
nor `free`. -/
theorem export_scene_export_only :
    export_scene zmqExportOnly false [plainFrame 1] [pollAt 1 false] =
      { trace :=
          [Event.render_start, Event.set_current_frame 1, Event.sync 1,
            Event.set_current_frame 1, Event.commit_changes, Event.start,
            Event.wait_returned true, Event.frame_reset, Event.export_vrscene, Event.join]
        outcome := .threw } := by
  decide

/-! ## Bucket compositing -/

/-- The region update keeps every float outside the rectangle. -/
theorem updateImageRegion_outside (dest : List Nat) (destW destH x y : Nat) (source : List Nat)
    (sourceW sourceH channels i : Nat)
    (h : inRegion destW destH channels x y sourceW sourceH i = false) :
    (updateImageRegion dest destW destH x y source sourceW sourceH channels)[i]? = dest[i]? := by
  unfold updateImageRegion
  rw [List.getElem?_mapIdx]
  cases hd : dest[i]? with
  | none => rfl
  | some v => simp [h]

/-- What the callback does to one pass: nothing, or the region update. -/
theorem updatePasses_getElem (img : AttrImage) (passes : List RenderPass) (p : Nat)
    (pass : RenderPass) (h : passes[p]? = some pass) :
    (updatePasses img passes)[p]? = some pass ∨
      (updatePasses img passes)[p]? = some (updatePass img pass) := by
  induction passes generalizing p with
  | nil => simp at h
  | cons q passes ih =>
    unfold updatePasses
    cases hc : (q.valid && decide (q.fullname = "Combined")) with
    | true =>
      simp only [if_true]
      cases p with
      | zero =>
        simp only [List.getElem?_cons_zero, Option.some.injEq] at h
        rw [h]
        exact Or.inr (by simp)
      | succ p =>
        simp only [List.getElem?_cons_succ] at h
        exact Or.inl (by simp [h])
    | false =>
      simp only [Bool.false_eq_true, if_false]
      cases p with
      | zero =>
        simp only [List.getElem?_cons_zero, Option.some.injEq] at h
        exact Or.inl (by simp [h])
      | succ p =>
        simp only [List.getElem?_cons_succ] at h ⊢
        exact ih p h

/-- A bucket message leaves every pass in its place; the pass is as before, or it is the pass
after the region update. -/
theorem cb_on_bucket_ready_passAt (self : BucketState) (img : AttrImage) (r l p : Nat)
    (pass : RenderPass) (hb : img.isBucket = true)
    (hpass : passAt self.m_renderResultsList r l p = some pass) :
    passAt (cb_on_bucket_ready self img).m_renderResultsList r l p = some pass ∨
      passAt (cb_on_bucket_ready self img).m_renderResultsList r l p =
        some (updatePass img pass) := by
  unfold passAt at hpass
  cases hr : self.m_renderResultsList[r]? with
  | none => simp [hr] at hpass
  | some result =>
    simp only [hr, Option.some_bind] at hpass
    cases hl : result.layers[l]? with
    | none => simp [hl] at hpass
    | some layer =>
      simp only [hl, Option.some_bind] at hpass
      rcases updatePasses_getElem img layer.passes p pass hpass with h | h
      · left
        simp [passAt, cb_on_bucket_ready, hb, hr, hl, h]
      · right
        simp [passAt, cb_on_bucket_ready, hb, hr, hl, h]

/-- A bucket message changes of a pass at most the floats inside its rectangle. -/
theorem cb_on_bucket_ready_outside (self : BucketState) (img : AttrImage) (r l p : Nat)
    (pass : RenderPass) (hb : img.isBucket = true)
    (hpass : passAt self.m_renderResultsList r l p = some pass) :
    ∃ pass2, passAt (cb_on_bucket_ready self img).m_renderResultsList r l p = some pass2 ∧
      pass2.fullname = pass.fullname ∧ pass2.valid = pass.valid ∧
      pass2.rectx = pass.rectx ∧ pass2.recty = pass.recty ∧
      pass2.channels = pass.channels ∧
      ∀ i, inRegion pass.rectx pass.recty pass.channels img.x img.y img.width img.height i =
        false → pass2.rect[i]? = pass.rect[i]? := by
  rcases cb_on_bucket_ready_passAt self img r l p pass hb hpass with h | h
  · exact ⟨pass, h, rfl, rfl, rfl, rfl, rfl, fun _ _ => rfl⟩
  · refine ⟨updatePass img pass, h, rfl, rfl, rfl, rfl, rfl, ?_⟩
    intro i hi
    exact updateImageRegion_outside _ _ _ _ _ _ _ _ _ i hi

/-- Rectangles that do not overlap have no float in common. -/
theorem inRegion_disjoint (a b : AttrImage) (destW destH channels i : Nat)
    (hd : disjointRects a b)
    (h : inRegion destW destH channels a.x a.y a.width a.height i = true) :
    inRegion destW destH channels b.x b.y b.width b.height i = false := by
  unfold disjointRects at hd
  unfold inRegion at h ⊢
  simp only [Bool.and_eq_true, decide_eq_true_eq] at h
  simp only [Bool.and_eq_false_iff, decide_eq_false_iff_not]
  omega

/-- C20 (bucket compositing): for every pass `pass` of every layer of every render result,
a bucket message leaves the pass in its place, with its name and dimensions, and changes of
its buffer at most the floats inside the rectangle of the message; so of two successive
bucket messages on disjoint rectangles the first leaves the rectangle of the second as it
was, the second leaves the rectangle of the first as the first made it, and what lies in
neither rectangle is as before both.  A message that is not a bucket changes neither the
render results nor the dirty flag. -/
theorem cb_on_bucket_ready_region (self : BucketState) (img1 img2 : AttrImage) (r l p : Nat)
    (pass : RenderPass) (hb1 : img1.isBucket = true) (hb2 : img2.isBucket = true)
    (hd : disjointRects img1 img2)
    (hpass : passAt self.m_renderResultsList r l p = some pass) :
    (∃ pass1 pass2,
      passAt (cb_on_bucket_ready self img1).m_renderResultsList r l p = some pass1 ∧
      passAt (cb_on_bucket_ready (cb_on_bucket_ready self img1) img2).m_renderResultsList
        r l p = some pass2 ∧
      (∀ i, inRegion pass.rectx pass.recty pass.channels img1.x img1.y img1.width img1.height
        i = false → pass1.rect[i]? = pass.rect[i]?) ∧
      (∀ i, inRegion pass.rectx pass.recty pass.channels img2.x img2.y img2.width img2.height
        i = false → pass2.rect[i]? = pass1.rect[i]?) ∧
      (∀ i, inRegion pass.rectx pass.recty pass.channels img2.x img2.y img2.width img2.height
        i = true → pass1.rect[i]? = pass.rect[i]?) ∧
      (∀ i, inRegion pass.rectx pass.recty pass.channels img1.x img1.y img1.width img1.height
        i = true → pass2.rect[i]? = pass1.rect[i]?) ∧
      (∀ i, inRegion pass.rectx pass.recty pass.channels img1.x img1.y img1.width img1.height
          i = false →
        inRegion pass.rectx pass.recty pass.channels img2.x img2.y img2.width img2.height
          i = false → pass2.rect[i]? = pass.rect[i]?)) ∧
    (∀ img : AttrImage, img.isBucket = false →
      (cb_on_bucket_ready self img).m_renderResultsList = self.m_renderResultsList ∧
      (cb_on_bucket_ready self img).m_imageDirty = self.m_imageDirty) := by
  constructor
  · obtain ⟨pass1, h1, _, _, hx, hy, hc, hout1⟩ :=
      cb_on_bucket_ready_outside self img1 r l p pass hb1 hpass
    obtain ⟨pass2, h2, _, _, _, _, _, hout2⟩ :=
      cb_on_bucket_ready_outside (cb_on_bucket_ready self img1) img2 r l p pass1 hb2 h1
    rw [hx, hy, hc] at hout2
    have hd2 : disjointRects img2 img1 := by
      unfold disjointRects at hd ⊢
      omega
    refine ⟨pass1, pass2, h1, h2, hout1, hout2, ?_, ?_, ?_⟩
    · intro i hi
      exact hout1 i (inRegion_disjoint img2 img1 _ _ _ i hd2 hi)
    · intro i hi
      exact hout2 i (inRegion_disjoint img1 img2 _ _ _ i hd hi)
    · intro i hi1 hi2
      rw [hout2 i hi2, hout1 i hi1]
  · intro img hb
    simp [cb_on_bucket_ready, hb]

/-- The statement of C20 at a buffer of four by four pixels and two buckets of two by two
pixels in opposite corners; the buffer after both messages holds the floats of the first
bucket in its corner, those of the second in its corner, and zero elsewhere, and the pass
`"Depth"` is unchanged. -/
theorem cb_on_bucket_ready_region_witness :
    (sampleBucket1.isBucket = true ∧ sampleBucket2.isBucket = true ∧
      disjointRects sampleBucket1 sampleBucket2 ∧
      passAt sampleBucketState.m_renderResultsList 0 0 1 = some sampleCombined) ∧
    (∃ pass1 pass2,
      passAt (cb_on_bucket_ready sampleBucketState sampleBucket1).m_renderResultsList 0 0 1 =
        some pass1 ∧
      passAt (cb_on_bucket_ready (cb_on_bucket_ready sampleBucketState sampleBucket1)
        sampleBucket2).m_renderResultsList 0 0 1 = some pass2 ∧
      ∀ i, inRegion sampleCombined.rectx sampleCombined.recty sampleCombined.channels
          sampleBucket1.x sampleBucket1.y sampleBucket1.width sampleBucket1.height i = true →
        pass2.rect[i]? = pass1.rect[i]?) ∧
    (cb_on_bucket_ready (cb_on_bucket_ready sampleBucketState sampleBucket1)
        sampleBucket2).m_renderResultsList =
      [ { layers :=
          [ { passes :=
              [ { valid := true, fullname := "Depth", rect := List.replicate 16 7, rectx := 4
                  recty := 4, channels := 1 },
                { valid := true, fullname := "Combined"
                  rect := [1, 1, 0, 0, 1, 1, 0, 0, 0, 0, 2, 2, 0, 0, 2, 2], rectx := 4
                  recty := 4, channels := 1 } ] } ] } ] :=
  ⟨⟨rfl, rfl, Or.inl (by decide), by decide⟩,
    (match (cb_on_bucket_ready_region sampleBucketState sampleBucket1 sampleBucket2 0 0 1
        sampleCombined rfl rfl (Or.inl (by decide)) (by decide)).1 with
      | ⟨pass1, pass2, h1, h2, _, _, _, h6, _⟩ => ⟨pass1, pass2, h1, h2, h6⟩),
    by decide⟩

/-! ## The diff cache: removed attributes, absent entries, what the digests depend on -/

namespace PluginManager

/-- C27 (no cache entry): for a description whose name has no cache entry, `differences`
returns a description with the name and the kind of `desc` and no attributes, while
`differs` returns `true`. -/
theorem differences_of_not_inCache (H : HashFn) (pm : PluginManager) (desc : PluginDesc)
    (h : pm.inCache desc.pluginName = false) :
    pm.differences H desc = PluginDesc.create desc.pluginName desc.pluginID ∧
      (pm.differences H desc).pluginAttrs = [] ∧
      pm.differs H desc = true := by
  have hfind := (inCache_eq_false_iff pm desc.pluginName).mp h
  unfold differences differs
  rw [diffWithCache_of_not_found H pm desc true hfind,
    diffWithCache_of_not_found H pm desc false hfind]
  exact ⟨rfl, rfl, rfl⟩

/-- The statement of C27 at the scenario entity and a cache that holds another entity. -/
theorem differences_of_not_inCache_witness :
    ((init true).updateCache MurmurHash3_x86_32 (intDesc "Lamp" "LightOmni" "enabled" 1)
        1).inCache (boxDesc "Mtl1" 1).pluginName = false ∧
      (((init true).updateCache MurmurHash3_x86_32 (intDesc "Lamp" "LightOmni" "enabled" 1)
        1).differences MurmurHash3_x86_32 (boxDesc "Mtl1" 1)).pluginAttrs = [] ∧
      ((init true).updateCache MurmurHash3_x86_32 (intDesc "Lamp" "LightOmni" "enabled" 1)
        1).differs MurmurHash3_x86_32 (boxDesc "Mtl1" 1) = true :=
  ⟨by decide,
    (differences_of_not_inCache MurmurHash3_x86_32 _ (boxDesc "Mtl1" 1) (by decide)).2.1,
    (differences_of_not_inCache MurmurHash3_x86_32 _ (boxDesc "Mtl1" 1) (by decide)).2.2⟩

end PluginManager

namespace PluginManager

end PluginManager

/-! ## The hasher: scalars and kinds without a `case` -/

/-- C25 (scalar digests are the raw bit pattern): for every hash function and seed, the
digest of a `Float` attribute is the 32-bit pattern of the float, the digest of an `Int`
attribute is the integer as an unsigned 32-bit value (the integer modulo `2^32`); two `Float`
attributes have equal digests if and only if their bit patterns are equal; and `0.0` and
`-0.0` have the digests `0` and `0x80000000`. -/
theorem getAttrHash_scalar (H : HashFn) (seed : MHash) (v w : Nat) (i : Int)
    (hv : isWord v) (hw : isWord w) :
    getAttrHash H (.float v) seed = v ∧
      getAttrHash H (.int i) seed = wordOfInt i ∧
      (wordOfInt i : Int) = i % 4294967296 ∧
      (getAttrHash H (.float v) seed = getAttrHash H (.float w) seed ↔ v = w) ∧
      getAttrHash H (.float 0) seed = 0 ∧
      getAttrHash H (.float floatNegZero) seed = 2147483648 := by
  unfold isWord at hv hw
  have h1 : getAttrHash H (.float v) seed = v := by
    show v % 4294967296 = v
    omega
  have h2 : getAttrHash H (.float w) seed = w := by
    show w % 4294967296 = w
    omega
  refine ⟨h1, rfl, ?_, ?_, rfl, rfl⟩
  · unfold wordOfInt
    omega
  · rw [h1, h2]

/-- The statement of C25 at the floats `1.0` and `-0.0` and the integer `-1`. -/
theorem getAttrHash_scalar_witness :
    (isWord floatOne ∧ isWord floatNegZero) ∧
      getAttrHash MurmurHash3_x86_32 (.float floatOne) 42 = floatOne ∧
      getAttrHash MurmurHash3_x86_32 (.int (-1)) 42 = 4294967295 :=
  ⟨⟨by unfold isWord floatOne; omega, by unfold isWord floatNegZero; omega⟩,
    (getAttrHash_scalar MurmurHash3_x86_32 42 floatOne floatNegZero (-1)
      (by unfold isWord floatOne; omega) (by unfold isWord floatNegZero; omega)).1,
    (getAttrHash_scalar MurmurHash3_x86_32 42 floatOne floatNegZero (-1)
      (by unfold isWord floatOne; omega) (by unfold isWord floatNegZero; omega)).2.1⟩

/-- C26 (unknown kinds hash to zero): for every hash function and seed, `getAttrHash`
returns `0` for every value whose type tag has no `case` in its switch. -/
theorem getAttrHash_unhandled (H : HashFn) (seed : MHash) (v : AttrValue)
    (h : v.hashed = false) : getAttrHash H v seed = 0 := by
  cases v <;> first | rfl | (simp [AttrValue.hashed] at h)

/-- The statement of C26 at the kind `Unknown`. -/
theorem getAttrHash_unhandled_witness :
    AttrValue.unknown.hashed = false ∧ getAttrHash MurmurHash3_x86_32 .unknown 7 = 0 :=
  ⟨rfl, getAttrHash_unhandled MurmurHash3_x86_32 7 .unknown rfl⟩

/-! ## The transport: the message sequence of an entity update -/

/-- The time statement sends nothing but `SetCurrentTime` messages. -/
theorem exportTime_sent (s : ExportState) (attr : PluginAttr) :
    ∃ t, (exportTime s attr).m_Client = s.m_Client ++ t ∧ withoutTimes t = [] := by
  unfold exportTime
  by_cases h1 : s.timeSet = false
  · exact ⟨[VRayMessage.setCurrentTime attr.time], by simp [h1, ExportState.send], rfl⟩
  · by_cases h2 : s.lastTime ≠ attr.time
    · exact ⟨[VRayMessage.setCurrentTime attr.time], by simp [h1, h2, ExportState.send], rfl⟩
    · exact ⟨[], by simp [h1, h2], rfl⟩

/-- The type switch sends the attribute-update message of a sendable value, and nothing
else. -/
theorem exportValue_sent (name : String) (s : ExportState) (attr : PluginAttr) :
    (exportValue name s attr).m_Client =
      s.m_Client ++ (if attr.attrValue.sendable then [attrMessage name attr] else []) := by
  obtain ⟨n, v, t⟩ := attr
  cases v <;> simp [exportValue, AttrValue.sendable, ExportState.send, attrMessage]

/-- The loop of `export_plugin`: apart from `SetCurrentTime` messages it sends the
attribute-update messages of the sendable attributes, in order. -/
theorem foldl_exportAttr_sent (name : String) (l : List PluginAttr) (s : ExportState) :
    ∃ rest, (l.foldl (exportAttr name) s).m_Client = s.m_Client ++ rest ∧
      withoutTimes rest =
        (l.filter fun a => a.attrValue.sendable).map (attrMessage name) := by
  induction l generalizing s with
  | nil => exact ⟨[], by simp, rfl⟩
  | cons a l ih =>
    obtain ⟨t, ht, htw⟩ := exportTime_sent s a
    have hv := exportValue_sent name (exportTime s a) a
    obtain ⟨rest, hrest, hw⟩ := ih (exportAttr name s a)
    refine ⟨t ++ (if a.attrValue.sendable then [attrMessage name a] else []) ++ rest, ?_, ?_⟩
    · simp only [List.foldl_cons, hrest]
      unfold exportAttr
      rw [hv, ht]
      simp
    · unfold withoutTimes at htw hw ⊢
      simp only [List.filter_append, htw, hw, List.nil_append]
      cases hs : a.attrValue.sendable
      · simp [hs]
      · simp [hs, attrMessage, VRayMessage.isSetCurrentTime]

/-- C24 (message sequence of an entity update): for every description that `filterPlugin`
hands over with a non-empty kind, `export_plugin` first sends the declare message (name,
kind); what follows holds, apart from `SetCurrentTime` messages, exactly the attribute-update
messages (name, attribute name, value) of the attributes of a sendable kind, one for each, in
the enumeration order of the attribute map, and no message for an attribute of kind
`Unknown`; the returned handle names the description. -/
theorem export_plugin_messages (filterPlugin : PluginDesc → PluginDesc) (pDesc : PluginDesc)
    (hid : (filterPlugin pDesc).pluginID ≠ "") :
    ∃ rest,
      (export_plugin filterPlugin pDesc).sent =
        VRayMessage.createPlugin (filterPlugin pDesc).pluginName (filterPlugin pDesc).pluginID ::
          rest ∧
      withoutTimes rest =
        ((filterPlugin pDesc).pluginAttrs.filter fun a => a.attrValue.sendable).map
          (attrMessage (filterPlugin pDesc).pluginName) ∧
      (∀ n,
        VRayMessage.pluginAttr (filterPlugin pDesc).pluginName n AttrValue.unknown ∉ rest) ∧
      (export_plugin filterPlugin pDesc).plugin =
        { plugin := (filterPlugin pDesc).pluginName, output := "" } := by
  obtain ⟨rest, hrest, hw⟩ := foldl_exportAttr_sent (filterPlugin pDesc).pluginName
    (filterPlugin pDesc).pluginAttrs
    { m_Client :=
        [VRayMessage.createPlugin (filterPlugin pDesc).pluginName (filterPlugin pDesc).pluginID]
      timeSet := false, lastTime := 0, assertFailed := false }
  refine ⟨rest, ?_, hw, ?_, ?_⟩
  · unfold export_plugin
    simp only [hid, if_false]
    rw [hrest]
    rfl
  · intro n hn
    have hin : VRayMessage.pluginAttr (filterPlugin pDesc).pluginName n AttrValue.unknown ∈
        withoutTimes rest := by
      unfold withoutTimes
      rw [List.mem_filter]
      exact ⟨hn, rfl⟩
    rw [hw] at hin
    obtain ⟨a, ha, hm⟩ := List.mem_map.mp hin
    have hs := (List.mem_filter.mp ha).2
    unfold attrMessage at hm
    simp only [VRayMessage.pluginAttr.injEq] at hm
    rw [hm.2.2] at hs
    simp [AttrValue.sendable] at hs
  · unfold export_plugin
    simp only [hid, if_false]

/-- The statement of C24 at a description with an attribute of kind `Unknown` between two
`Int` attributes. -/
theorem export_plugin_messages_witness :
    (id mixedDesc).pluginID ≠ "" ∧
      (export_plugin id mixedDesc).sent =
        [ VRayMessage.createPlugin "Box" "Node",
          VRayMessage.setCurrentTime 0,
          VRayMessage.pluginAttr "Box" "objectID" (AttrValue.int 7),
          VRayMessage.pluginAttr "Box" "visible" (AttrValue.int 1) ] ∧
      ∃ rest,
        (export_plugin id mixedDesc).sent =
          VRayMessage.createPlugin (id mixedDesc).pluginName (id mixedDesc).pluginID :: rest ∧
        withoutTimes rest =
          ((id mixedDesc).pluginAttrs.filter fun a => a.attrValue.sendable).map
            (attrMessage (id mixedDesc).pluginName) ∧
        (∀ n, VRayMessage.pluginAttr (id mixedDesc).pluginName n AttrValue.unknown ∉ rest) ∧
        (export_plugin id mixedDesc).plugin =
          { plugin := (id mixedDesc).pluginName, output := "" } :=
  ⟨by decide, by decide, export_plugin_messages id mixedDesc (by decide)⟩

/-! ## The diff cache and the enumeration order

The theorems of this section make no assumption on the order in which a description
enumerates its attributes: the attribute names are unique, nothing else. -/

namespace HashMap

/-- An assignment adds at most the assigned entry. -/
theorem mem_set {β : Type} (m : HashMap β) (key : String) (value : β) (p : String × β)
    (h : p ∈ set m key value) : p = (key, value) ∨ p ∈ m := by
  induction m with
  | nil =>
    simp only [set, List.mem_singleton] at h
    exact Or.inl h
  | cons e m ih =>
    obtain ⟨k, v⟩ := e
    unfold set at h
    by_cases hk : k = key
    · simp only [hk, if_true, List.mem_cons] at h
      rcases h with h | h
      · exact Or.inl h
      · exact Or.inr (List.mem_cons_of_mem _ h)
    · simp only [hk, if_false] at h
      cases hlt : keyLt key k with
      | true =>
        simp only [hlt, if_true, List.mem_cons] at h
        rcases h with h | h | h
        · exact Or.inl h
        · exact Or.inr (by rw [h]; exact List.mem_cons_self _ _)
        · exact Or.inr (List.mem_cons_of_mem _ h)
      | false =>
        simp only [hlt, Bool.false_eq_true, if_false, List.mem_cons] at h
        rcases h with h | h
        · exact Or.inr (by rw [h]; exact List.mem_cons_self _ _)
        · rcases ih h with h2 | h2
          · exact Or.inl h2
          · exact Or.inr (List.mem_cons_of_mem _ h2)

/-- An assignment to a key that is not there makes the map one entry larger. -/
theorem length_set {β : Type} (m : HashMap β) (key : String) (value : β)
    (h : find m key = none) : (set m key value).length = m.length + 1 := by
  induction m with
  | nil => simp [set]
  | cons e m ih =>
    obtain ⟨k, v⟩ := e
    unfold find at h
    by_cases hk : k = key
    · simp [hk] at h
    · simp only [hk, if_false] at h
      unfold set
      cases hlt : keyLt key k with
      | true => simp [hk]
      | false => simp [hk, ih h]

end HashMap

namespace PluginDesc

end PluginDesc

namespace PluginManager

/-- The per-attribute digest map that the loop of `makeHash` builds from the attributes `l`
(unique names, in any order), on top of the map of `acc`. -/
theorem foldl_makeHashStep_find (H : HashFn) (l : List PluginAttr) (acc : PluginDescHash)
    (hnd : (l.map PluginAttr.attrName).Nodup) :
    (∀ a ∈ l, HashMap.find (l.foldl (makeHashStep H) acc).m_attrHashes a.attrName =
        some (attrDigest H a)) ∧
      (∀ n, n ∉ l.map PluginAttr.attrName →
        HashMap.find (l.foldl (makeHashStep H) acc).m_attrHashes n =
          HashMap.find acc.m_attrHashes n) ∧
      (∀ p ∈ (l.foldl (makeHashStep H) acc).m_attrHashes,
        p ∈ acc.m_attrHashes ∨ ∃ a ∈ l, p = (a.attrName, attrDigest H a)) ∧
      ((∀ a ∈ l, HashMap.find acc.m_attrHashes a.attrName = none) →
        (l.foldl (makeHashStep H) acc).m_attrHashes.length =
          acc.m_attrHashes.length + l.length) := by
  induction l generalizing acc with
  | nil => simp
  | cons a l ih =>
    have hnd2 : (l.map PluginAttr.attrName).Nodup := (List.nodup_cons.mp hnd).2
    have hnot : a.attrName ∉ l.map PluginAttr.attrName := (List.nodup_cons.mp hnd).1
    have hstep : (makeHashStep H acc a).m_attrHashes =
        HashMap.set acc.m_attrHashes a.attrName (attrDigest H a) := rfl
    obtain ⟨i1, i2, i3, i4⟩ := ih (makeHashStep H acc a) hnd2
    simp only [List.foldl_cons]
    refine ⟨?_, ?_, ?_, ?_⟩
    · intro b hb
      rcases List.mem_cons.mp hb with hba | hbl
      · rw [hba, i2 a.attrName hnot, hstep, HashMap.find_set_self]
      · exact i1 b hbl
    · intro n hn
      simp only [List.map_cons, List.mem_cons, not_or] at hn
      rw [i2 n hn.2, hstep, HashMap.find_set_of_ne _ _ _ _ (fun h => hn.1 h.symm)]
    · intro p hp
      rcases i3 p hp with h | ⟨b, hb, hpb⟩
      · rw [hstep] at h
        rcases HashMap.mem_set _ _ _ _ h with h2 | h2
        · exact Or.inr ⟨a, List.mem_cons_self _ _, h2⟩
        · exact Or.inl h2
      · exact Or.inr ⟨b, List.mem_cons_of_mem _ hb, hpb⟩
    · intro hfree
      have hfree2 : ∀ b ∈ l, HashMap.find (makeHashStep H acc a).m_attrHashes b.attrName =
          none := by
        intro b hb
        have hne : a.attrName ≠ b.attrName := by
          intro h
          apply hnot
          rw [h]
          exact List.mem_map_of_mem _ hb
        rw [hstep, HashMap.find_set_of_ne _ _ _ _ hne]
        exact hfree b (List.mem_cons_of_mem _ hb)
      rw [i4 hfree2, hstep, HashMap.length_set _ _ _ (hfree a (List.mem_cons_self _ _))]
      simp only [List.length_cons]
      omega

/-- The digest map of `makeHash` holds the digest of every attribute under its name. -/
theorem makeHash_find (H : HashFn) (D : PluginDesc) (hnd : D.attrNames.Nodup)
    (a : PluginAttr) (ha : a ∈ D.pluginAttrs) :
    HashMap.find (makeHash H D).m_attrHashes a.attrName = some (attrDigest H a) :=
  (foldl_makeHashStep_find H D.pluginAttrs _ hnd).1 a ha

/-- The digest map of `makeHash` has no entry for a name that the description lacks. -/
theorem makeHash_find_none (H : HashFn) (D : PluginDesc) (hnd : D.attrNames.Nodup)
    (n : String) (hn : n ∉ D.attrNames) :
    HashMap.find (makeHash H D).m_attrHashes n = none := by
  unfold makeHash
  rw [(foldl_makeHashStep_find H D.pluginAttrs _ hnd).2.1 n hn]
  rfl

/-- Every entry of the digest map of `makeHash` is the digest of an attribute. -/
theorem makeHash_mem (H : HashFn) (D : PluginDesc) (hnd : D.attrNames.Nodup)
    (p : String × MHash) (hp : p ∈ (makeHash H D).m_attrHashes) :
    ∃ a ∈ D.pluginAttrs, p = (a.attrName, attrDigest H a) := by
  rcases (foldl_makeHashStep_find H D.pluginAttrs _ hnd).2.2.1 p hp with h | h
  · simp at h
  · exact h

/-- The digest map of `makeHash` has one entry for each attribute. -/
theorem makeHash_size (H : HashFn) (D : PluginDesc) (hnd : D.attrNames.Nodup) :
    HashMap.size (makeHash H D).m_attrHashes = D.pluginAttrs.length := by
  unfold HashMap.size makeHash
  rw [(foldl_makeHashStep_find H D.pluginAttrs _ hnd).2.2.2 (by intro a _; rfl)]
  simp

/-- The loop of `diffWithCache` over entries that are all cached with their digest reports
no difference and adds nothing. -/
theorem diffLoop_unchanged (cacheAttrMap : HashMap MHash) (desc : PluginDesc)
    (buildDiff : Bool) (entries : List (String × MHash)) (res : PluginDesc)
    (h : ∀ p ∈ entries, HashMap.find cacheAttrMap p.1 = some p.2) :
    diffLoop cacheAttrMap desc buildDiff entries res = (false, res) := by
  induction entries with
  | nil => rfl
  | cons p entries ih =>
    unfold diffLoop
    rw [h p (List.mem_cons_self _ _)]
    simp only [ne_eq, not_true_eq_false, if_false]
    exact ih (fun q hq => h q (List.mem_cons_of_mem _ hq))

/-- The attributes of a diff are empty when the composite digests are equal. -/
theorem differences_nil_of_allHash_eq (H : HashFn) (pm : PluginManager) (desc : PluginDesc)
    (entry : PluginDescHash)
    (hfind : HashMap.find pm.m_cache desc.pluginName = some entry)
    (hall : (makeHash H desc).m_allHash = entry.m_allHash) :
    (pm.differences H desc).pluginAttrs = [] := by
  unfold differences diffWithCache
  simp [hfind, hall, PluginDesc.create]

/-- The diff in terms of the loop, when the composite digests differ. -/
theorem differences_of_allHash_ne (H : HashFn) (pm : PluginManager) (desc : PluginDesc)
    (entry : PluginDescHash)
    (hfind : HashMap.find pm.m_cache desc.pluginName = some entry)
    (hall : (makeHash H desc).m_allHash ≠ entry.m_allHash) :
    pm.differences H desc =
      (diffLoop entry.m_attrHashes desc true (makeHash H desc).m_attrHashes
        (PluginDesc.create desc.pluginName desc.pluginID)).2 := by
  unfold differences diffWithCache
  simp [hfind, hall]

/-- C17, as amended: for a description `D` with unique attribute names and a description
`D2` named like `D` that holds the same attributes (names and values) in any enumeration
order, `makeHash` gives the same digest under each attribute name; when `D2` enumerates the
attributes in the order of `D`, the composite digests are equal and `differs(D2)` returns
`false` after `updateCache(D, f)`; and in any order `differences(D2)` has no attributes. -/
theorem makeHash_enumeration (H : HashFn) (pm : PluginManager) (D D2 : PluginDesc) (f : Int)
    (hnd : D.attrNames.Nodup) (hname : D2.pluginName = D.pluginName)
    (hperm : (D2.pluginAttrs.map nameValue).Perm (D.pluginAttrs.map nameValue)) :
    (∀ n, HashMap.find (makeHash H D2).m_attrHashes n =
        HashMap.find (makeHash H D).m_attrHashes n) ∧
      (D2.pluginAttrs.map nameValue = D.pluginAttrs.map nameValue →
        (makeHash H D2).m_allHash = (makeHash H D).m_allHash ∧
          (pm.updateCache H D f).differs H D2 = false) ∧
      ((pm.updateCache H D f).differences H D2).pluginAttrs = [] := by
  have hnames : D2.attrNames.Perm D.attrNames := by
    have := hperm.map Prod.fst
    simpa [List.map_map, Function.comp_def, nameValue, PluginDesc.attrNames] using this
  have hnd2 : D2.attrNames.Nodup := hnames.nodup_iff.mpr hnd
  have hcached : ∀ a2 ∈ D2.pluginAttrs,
      HashMap.find (makeHash H D).m_attrHashes a2.attrName = some (attrDigest H a2) := by
    intro a2 ha2
    have hmem : nameValue a2 ∈ D.pluginAttrs.map nameValue :=
      hperm.mem_iff.mp (List.mem_map_of_mem _ ha2)
    obtain ⟨a, ha, hae⟩ := List.mem_map.mp hmem
    have hn : a.attrName = a2.attrName := congrArg Prod.fst hae
    rw [← hn, ← attrDigest_of_nameValue H a2 a hae]
    exact makeHash_find H D hnd a ha
  have hh := updatedEntry_hashes H pm.m_storeData D f
  have hfind : HashMap.find (pm.updateCache H D f).m_cache D2.pluginName =
      some (updatedEntry H pm.m_storeData D f) := by
    rw [hname]
    exact find_updateCache_self H pm D f
  refine ⟨?_, ?_, ?_⟩
  · intro n
    by_cases hn : n ∈ D2.attrNames
    · obtain ⟨a2, ha2, rfl⟩ := List.mem_map.mp hn
      rw [makeHash_find H D2 hnd2 a2 ha2, hcached a2 ha2]
    · rw [makeHash_find_none H D2 hnd2 n hn,
        makeHash_find_none H D hnd n (fun h => hn (hnames.mem_iff.mpr h))]
  · intro hsame
    have hall : (makeHash H D2).m_allHash = (makeHash H D).m_allHash := by
      rw [makeHash_allHash, makeHash_allHash, foldl_chainDigest_map, foldl_chainDigest_map,
        map_attrDigest_of_nameValue H D.pluginAttrs D2.pluginAttrs hsame]
    have hlen : D2.pluginAttrs.length = D.pluginAttrs.length := by
      have := congrArg List.length hsame
      simpa using this
    refine ⟨hall, ?_⟩
    unfold differs diffWithCache
    rw [hfind]
    simp [hh.1, hh.2.1, makeHash_size H D hnd, hlen, hall]
  · by_cases hall : (makeHash H D2).m_allHash = (updatedEntry H pm.m_storeData D f).m_allHash
    · exact differences_nil_of_allHash_eq H _ D2 _ hfind hall
    · rw [differences_of_allHash_ne H _ D2 _ hfind hall, hh.2.1, diffLoop_unchanged]
      · rfl
      · intro p hp
        obtain ⟨a2, ha2, rfl⟩ := makeHash_mem H D2 hnd2 p hp
        exact hcached a2 ha2

/-- The statement of C17 (amended) at the scenario entity, cached as a container enumerates
it that yields `material` first and asked about as one enumerates it that yields `transform`
first. -/
theorem makeHash_enumeration_witness :
    ((boxDesc "Mtl1" 1).attrNames.Nodup ∧
      (boxSwapped "Mtl1" 2).pluginName = (boxDesc "Mtl1" 1).pluginName ∧
      ((boxSwapped "Mtl1" 2).pluginAttrs.map nameValue).Perm
        ((boxDesc "Mtl1" 1).pluginAttrs.map nameValue)) ∧
      (((init false).updateCache MurmurHash3_x86_32 (boxDesc "Mtl1" 1) 1).differences
        MurmurHash3_x86_32 (boxSwapped "Mtl1" 2)).pluginAttrs = [] :=
  ⟨⟨by decide, rfl, List.Perm.swap _ _ _⟩,
    (makeHash_enumeration MurmurHash3_x86_32 (init false) (boxDesc "Mtl1" 1)
      (boxSwapped "Mtl1" 2) 1 (by decide) rfl (List.Perm.swap _ _ _)).2.2⟩

/-- C17 fails as stated: the scenario entity enumerated with `material` first and the same
entity (same name, same kind, same attribute names and values) enumerated with `transform`
first get different composite digests from `makeHash`, with the reference hash function, and
after `updateCache` of the one `differs` of the other returns `true`, in both
retain-full-data modes. -/
theorem makeHash_order_matters :
    ((boxSwapped "Mtl1" 1).pluginName = (boxDesc "Mtl1" 1).pluginName ∧
      (boxSwapped "Mtl1" 1).pluginID = (boxDesc "Mtl1" 1).pluginID ∧
      (boxSwapped "Mtl1" 1).pluginAttrs.Perm (boxDesc "Mtl1" 1).pluginAttrs) ∧
      (makeHash MurmurHash3_x86_32 (boxSwapped "Mtl1" 1)).m_allHash ≠
        (makeHash MurmurHash3_x86_32 (boxDesc "Mtl1" 1)).m_allHash ∧
      ((init false).updateCache MurmurHash3_x86_32 (boxDesc "Mtl1" 1) 1).differs
        MurmurHash3_x86_32 (boxSwapped "Mtl1" 1) = true ∧
      ((init true).updateCache MurmurHash3_x86_32 (boxDesc "Mtl1" 1) 1).differs
        MurmurHash3_x86_32 (boxSwapped "Mtl1" 1) = true :=
  ⟨⟨rfl, rfl, List.Perm.swap _ _ _⟩, by decide, by decide, by decide⟩

end PluginManager

end VRayForBlender
